import Mathlib

/-!
Verification of the heap-file layer (`src/heapfile.C`) of a disk-backed
storage engine.  The file embeds the C++ source as executable Lean
definitions: the heap-file operations (`createHeapFile`, `HeapFile::getRecord`,
`HeapFileScan::startScan/scanNext/markScan/resetScan/deleteRecord`,
`InsertFileScan::insertRecord`) are translated statement by statement, with
machine-integer conversions made explicit and the buffer-manager calls
recorded in a trace.  The slotted-page layer (`page.C`) and the record/rid
types are collaborators that are not part of the repository; they are
modelled from the specification's collaborator contract (spec section 6).
-/

set_option maxRecDepth 10000

/-- Status codes returned by the layer (from `error.h` / the spec's section 7). -/
inductive Status where
  | OK
  | FILEEXISTS
  | FILENOTFOUND
  | BADSCANPARM
  | INVALIDRECLEN
  | FILEEOF
  | NORECORDS
  | ENDOFPAGE
  | INVALIDSLOTNO
  | NOSPACE
  | BADPAGENO
  deriving DecidableEq, Repr

open Status

/-- The attribute types a scan filter can compare (`Datatype` in the source). -/
inductive Datatype where
  | STRING
  | INTEGER
  | FLOAT
  deriving DecidableEq, Repr

/-- The six relational operators of a scan filter (`Operator` in the source). -/
inductive Operator where
  | LT
  | LTE
  | EQ
  | GTE
  | GT
  | NE
  deriving DecidableEq, Repr

/-- Record identifier: the `(pageNo, slotNo)` pair (`RID` in the source). -/
structure Rid where
  pageNo : Int
  slotNo : Int
  deriving DecidableEq, Repr

/-- Modelled from the spec: the distinguished `NULL_RID` ("no record"),
conventionally `(-1, -1)`. -/
def NULLRID : Rid := ⟨-1, -1⟩

/-- A record: a byte payload plus the C `int length` field (`Record` in the
source holds `void* data` and `int length`; the bytes are modelled as a list
of naturals below 256). -/
structure Rec where
  data : List Nat
  length : Int
  deriving DecidableEq, Repr

/-- Page size in bytes (from the course's `page.h`; the claims depend only on
`0 < DPFIXED < PAGESIZE < 2^31`). -/
def PAGESIZE : Int := 1024

/-- Fixed per-page overhead of the slotted layout (from the course's
`page.h`). -/
def DPFIXED : Int := 20

/-- C cast `(unsigned int) x` for a 32-bit `int x`, as a mathematical
integer in `[0, 2^32)`. -/
def uint32 (z : Int) : Int := z % (2 ^ 32)

/-- Two's-complement wraparound of a 32-bit signed intermediate result
(the C source's `int` subtraction; overflow is modelled as wraparound). -/
def wrap32 (z : Int) : Int := (z + 2 ^ 31) % 2 ^ 32 - 2 ^ 31

/-- Three-valued comparison result, with a fourth value for IEEE NaN
(a NaN `diff` makes every C comparison false except `!=`). -/
inductive Sign3 where
  | neg
  | zero
  | pos
  | nan
  deriving DecidableEq, Repr

/-- Sign of an integer as a `Sign3`. -/
def sign3 (z : Int) : Sign3 :=
  if z < 0 then .neg else if z = 0 then .zero else .pos

/-- Sign of a rational as a `Sign3`. -/
def sign3q (q : ℚ) : Sign3 :=
  if q < 0 then .neg else if q = 0 then .zero else .pos

/-- Apply one of the six operators to the sign of `diff`, exactly as the
`switch(op)` at the end of `HeapFileScan::matchRec` does.  A NaN `diff`
fails `<, <=, ==, >=, >` and passes `!=`, following IEEE comparison. -/
def applyOp (op : Operator) (d : Sign3) : Bool :=
  match op with
  | .LT => match d with | .neg => true | _ => false
  | .LTE => match d with | .neg => true | .zero => true | _ => false
  | .EQ => match d with | .zero => true | _ => false
  | .GTE => match d with | .zero => true | .pos => true | _ => false
  | .GT => match d with | .pos => true | _ => false
  | .NE => match d with | .zero => false | _ => true

/-- Little-endian 32-bit value of the first four bytes of a list (bytes are
normalised modulo 256, as a C `memcpy` into a 4-byte object reads raw bytes). -/
def le32n (l : List Nat) : Nat :=
  (l.getD 0 0) % 256 + 256 * ((l.getD 1 0) % 256) +
    65536 * ((l.getD 2 0) % 256) + 16777216 * ((l.getD 3 0) % 256)

/-- The 32-bit signed integer read by `memcpy(&iattr, p, 4)` on a
little-endian machine. -/
def decodeI32 (l : List Nat) : Int :=
  let n := le32n l
  if n < 2 ^ 31 then (n : Int) else (n : Int) - 2 ^ 32

/-- IEEE-754 binary32 value read by `memcpy(&fattr, p, 4)`: NaN, a signed
infinity, or a finite value represented exactly as a rational. -/
inductive F32 where
  | nan
  | inf (neg : Bool)
  | fin (q : ℚ)
  deriving DecidableEq, Repr

/-- Decode four little-endian bytes as an IEEE-754 binary32 number. -/
def decodeF32 (l : List Nat) : F32 :=
  let n : Nat := le32n l
  let sgn : Bool := decide (n / 2 ^ 31 = 1)
  let ex : Nat := (n / 2 ^ 23) % 256
  let fr : Nat := n % 2 ^ 23
  if ex = 255 then (if fr = 0 then .inf sgn else .nan)
  else
    let mag : ℚ :=
      if ex = 0 then (fr : ℚ) / ((2 : ℚ) ^ (149 : Nat))
      else ((2 ^ 23 + fr : Nat) : ℚ) * (2 : ℚ) ^ ex / ((2 : ℚ) ^ (150 : Nat))
    .fin (if sgn then -mag else mag)

/-- Sign of the IEEE float subtraction `fattr - ffltr` as compared against
`0.0` by the source.  For finite operands the comparison agrees with the
exact rational difference: gradual underflow makes `x - y == 0` iff `x = y`,
and rounding or overflow to infinity preserves the sign.  `inf - inf` of
equal signs is NaN. -/
def fsubSign : F32 → F32 → Sign3
  | .nan, _ => .nan
  | .inf _, .nan => .nan
  | .fin _, .nan => .nan
  | .inf a, .inf b => if a = b then .nan else (if a then .neg else .pos)
  | .inf a, .fin _ => if a then .neg else .pos
  | .fin _, .inf b => if b then .pos else .neg
  | .fin x, .fin y => sign3q (x - y)

/-- C `strncmp(a, b, n)` on raw bytes: compare at most `n` bytes, stopping
early at the first differing byte or at a null byte present in both operands.
Reading past the ends of the lists is modelled as reading a zero byte. -/
def strncmpS : List Nat → List Nat → Nat → Int
  | _, _, 0 => 0
  | a, b, n + 1 =>
    let x := (a.headD 0) % 256
    let y := (b.headD 0) % 256
    if x ≠ y then (x : Int) - (y : Int)
    else if x = 0 then 0
    else strncmpS a.tail b.tail n

/-- The byte window `p[off], …, p[off+n-1]` of a record payload. -/
def bytesAt (data : List Nat) (off : Int) (n : Nat) : List Nat :=
  (data.drop off.toNat).take n

/-- The scan predicate configuration (`offset`, `length`, `type`, `filter`,
`op` members of `HeapFileScan`; `filter` is the pointed-to bytes, `none`
when the filter pointer is NULL). -/
structure ScanParams where
  offset : Int
  length : Int
  dtype : Datatype
  filter : Option (List Nat)
  op : Operator
  deriving DecidableEq, Repr

/-- `HeapFileScan::matchRec`, translated from the source.  `memcpy` copies
`length` bytes; `startScan` guarantees `length = 4` whenever the type is
INTEGER or FLOAT, so those branches read a four-byte window. -/
def matchRec (sp : ScanParams) (r : Rec) : Bool :=
  match sp.filter with
  | none => true
  | some f =>
    -- see if offset + length is beyond end of record
    if sp.offset + sp.length - 1 ≥ r.length then false
    else
      let d : Sign3 :=
        match sp.dtype with
        | .INTEGER =>
          let iattr := decodeI32 (bytesAt r.data sp.offset sp.length.toNat)
          let ifltr := decodeI32 (f.take sp.length.toNat)
          sign3 (wrap32 (iattr - ifltr))
        | .FLOAT =>
          let fattr := decodeF32 (bytesAt r.data sp.offset sp.length.toNat)
          let ffltr := decodeF32 (f.take sp.length.toNat)
          fsubSign fattr ffltr
        | .STRING =>
          sign3 (strncmpS (r.data.drop sp.offset.toNat) f sp.length.toNat)
      applyOp sp.op d

/-- Modelled from the spec: a slotted data page (the `Page` collaborator of
section 6, whose source `page.C` is not part of this repository).  `slots`
is the slot directory (`none` marks a vacated slot, slot numbers are stable
across deletions), `nextPage` the forward link (`-1` at the tail), `free`
the remaining free space, and `pageNo` the page's own number (used to build
the rids it hands out). -/
structure Page where
  pageNo : Int
  slots : List (Option Rec)
  nextPage : Int
  free : Int
  deriving DecidableEq, Repr

/-- Modelled from the spec: `Page::init` — empty slot directory,
`nextPage = SENTINEL_END`, a fresh page can hold a record of
`PAGESIZE - DPFIXED` bytes. -/
def Page.init (pageNo : Int) : Page :=
  { pageNo := pageNo, slots := [], nextPage := -1, free := PAGESIZE - DPFIXED }

/-- Index of the first vacated slot, if any (deleted slots are reusable
within a page). -/
def firstNoneIdx (l : List (Option Rec)) : Option Nat :=
  (List.range l.length).find? fun i => (l.getD i none).isNone

/-- Modelled from the spec: `Page::insertRecord`.  Fails with `NOSPACE` when
the record does not fit in the remaining free space; otherwise stores the
record in the first vacated slot, or in a fresh slot at the end. -/
def Page.insertRecordS (pg : Page) (r : Rec) : Status × Option (Page × Rid) :=
  if r.length > pg.free then (NOSPACE, none)
  else
    match firstNoneIdx pg.slots with
    | some i =>
      (OK, some ({ pg with slots := pg.slots.set i (some r), free := pg.free - r.length },
        ⟨pg.pageNo, (i : Int)⟩))
    | none =>
      (OK, some ({ pg with slots := pg.slots ++ [some r], free := pg.free - r.length },
        ⟨pg.pageNo, (pg.slots.length : Int)⟩))

/-- Modelled from the spec: `Page::deleteRecord` — `INVALIDSLOTNO` when the
named slot does not hold a record; deleting frees the slot's space. -/
def Page.deleteRecordS (pg : Page) (rid : Rid) : Status × Page :=
  if rid.slotNo < 0 then (INVALIDSLOTNO, pg)
  else
    match pg.slots.getD rid.slotNo.toNat none with
    | none => (INVALIDSLOTNO, pg)
    | some r =>
      (OK, { pg with slots := pg.slots.set rid.slotNo.toNat none, free := pg.free + r.length })

/-- Modelled from the spec: the record `Page::getRecord` returns for a rid,
or `none` when the slot does not hold one. -/
def Page.getRecordP (pg : Page) (rid : Rid) : Option Rec :=
  if rid.slotNo < 0 then none
  else pg.slots.getD rid.slotNo.toNat none

/-- Status `Page::getRecord` reports (`OK` or `INVALIDSLOTNO`). -/
def Page.getRecSt (pg : Page) (rid : Rid) : Status :=
  match pg.getRecordP rid with
  | some _ => OK
  | none => INVALIDSLOTNO

/-- Least live slot index strictly greater than `lo` (shared kernel of
`Page::firstRecord` and `Page::nextRecord`; slot iteration is by ascending
slot number). -/
def firstLiveIdx (slots : List (Option Rec)) (lo : Int) : Option Nat :=
  (List.range slots.length).find? fun i => lo < (i : Int) && (slots.getD i none).isSome

/-- Modelled from the spec: `Page::nextRecord` — the next record after `cur`
in slot order, `ENDOFPAGE` when there is none.  Starting from a slot number
of `-1` (the `NULL_RID` convention) yields the page's first record. -/
def Page.nextRecordSN (pg : Page) (cur : Rid) : Status × Option Rid :=
  match firstLiveIdx pg.slots cur.slotNo with
  | some i => (OK, some ⟨pg.pageNo, (i : Int)⟩)
  | none => (ENDOFPAGE, none)

/-- Modelled from the spec: `Page::firstRecord` — the first record on the
page, `NORECORDS` on an empty page. -/
def Page.firstRecordSN (pg : Page) : Status × Option Rid :=
  match firstLiveIdx pg.slots (-1) with
  | some i => (OK, some ⟨pg.pageNo, (i : Int)⟩)
  | none => (NORECORDS, none)


/-! ## File, handle and scan state -/

/-- Contents of the file header page (`FileHdrPage` in the source; the
`fileName` field is informational and omitted). -/
structure FileHdr where
  firstPage : Int
  lastPage : Int
  pageCnt : Int
  recCnt : Int
  deriving DecidableEq, Repr

/-- The pages of one heap file as seen through the buffer manager: the header
(modelled structurally as `hdr`, it occupies page number 0), the data pages
keyed by page number, and the next page number `allocPage` would hand out. -/
structure HFile where
  hdr : FileHdr
  pages : List (Int × Page)
  nextAlloc : Int
  deriving DecidableEq, Repr

/-- Look up a data page by page number. -/
def plookup (l : List (Int × Page)) (k : Int) : Option Page :=
  match l.find? (fun e => e.1 == k) with
  | some e => some e.2
  | none => none

/-- Replace the contents of the data page stored under key `k` (the effect of
writing through a pinned frame). -/
def pupdate (l : List (Int × Page)) (k : Int) (pg : Page) : List (Int × Page) :=
  l.map fun e => if e.1 == k then (k, pg) else e

/-- Buffer-manager calls issued by an operation, in order (`readPage`,
`unPinPage` with its dirty argument, `allocPage`). -/
inductive BufOp where
  | read (pageNo : Int)
  | unpin (pageNo : Int) (dirty : Bool)
  | alloc (pageNo : Int)
  deriving DecidableEq, Repr

/-- The in-memory state of a `HeapFile` handle together with the scan members
of `HeapFileScan` (`curPtr` is the page frame the `curPage` pointer refers
to — `none` models a NULL pointer; `curPageNo` is the separate integer
member, which the source lets disagree with the pointer on some paths). -/
structure HFS where
  file : HFile
  curPtr : Option Int
  curPageNo : Int
  curDirtyFlag : Bool
  hdrDirtyFlag : Bool
  curRec : Rid
  sp : ScanParams
  markedPageNo : Int
  markedRec : Rid
  deriving DecidableEq, Repr

/-- The file-manager state `db`: named files plus the multiset of handles
`openFile` has returned and `closeFile` has not yet closed. -/
structure FS where
  files : List (String × HFile)
  openHandles : List String
  deriving DecidableEq, Repr

/-- The heap file laid down by the creation path of `createHeapFile`: header
on page 0, one empty data page on page 1, `firstPage = lastPage = 1`,
`pageCnt = 1`, `recCnt = 0`. -/
def newHeapFile : HFile :=
  { hdr := { firstPage := 1, lastPage := 1, pageCnt := 1, recCnt := 0 },
    pages := [(1, Page.init 1)],
    nextAlloc := 2 }

/-- `createHeapFile`, translated from the source.  When the file already
exists, `db.openFile` succeeds and the function returns `FILEEXISTS`
immediately — the opened handle is never closed, so it stays in
`openHandles`.  Otherwise the file is created, two pages are allocated
(header, then first data page), the header fields are set, both pages are
unpinned dirty and the file is closed. -/
def createHeapFile (fs : FS) (name : String) : Status × FS :=
  match (fs.files.find? (fun e => e.1 == name)).isSome with
  | true =>
    -- Tried to open an existing file: return FILEEXISTS with the handle
    -- still open (the source has no db.closeFile on this path).
    (FILEEXISTS, { fs with openHandles := name :: fs.openHandles })
  | false =>
    (OK, { fs with files := (name, newHeapFile) :: fs.files })

/-- The members the `HeapFile` constructor initialises after reading the
header page and pinning the first data page (`curRec = NULLRID`, both dirty
flags false).  The scan members of `HeapFileScan` are not initialised by the
constructors; their indeterminate values are modelled as zeros, a NULL
filter and `EQ`. -/
def openScan (f : HFile) : HFS :=
  { file := f,
    curPtr := some f.hdr.firstPage,
    curPageNo := f.hdr.firstPage,
    curDirtyFlag := false,
    hdrDirtyFlag := false,
    curRec := NULLRID,
    sp := { offset := 0, length := 0, dtype := .STRING, filter := none, op := .EQ },
    markedPageNo := 0,
    markedRec := NULLRID }

/-- `HeapFile::getRecCnt`. -/
def getRecCnt (s : HFS) : Int := s.file.hdr.recCnt

/-- `HeapFile::getRecord`, translated from the source.  Every status of the
page layer and of the buffer manager is discarded, and the function returns
`OK` unconditionally, setting `curRec = rid` even when the slot does not
exist.  The returned record is `none` when the slot read failed (in C the
output record is then left unassigned).  Paths on which the source would
dereference a NULL or unassigned `curPage` pointer are marked below. -/
def hfGetRecord (s : HFS) (rid : Rid) : Status × Option Rec × HFS × List BufOp :=
  if rid.pageNo = s.curPageNo then
    match s.curPtr with
    | some k =>
      let rec? := (plookup s.file.pages k).bind fun pg => pg.getRecordP rid
      (OK, rec?, { s with curRec := rid }, [])
    | none =>
      -- curPage is NULL here and the source dereferences it.
      (OK, none, { s with curRec := rid }, [])
  else if s.curPtr.isNone then
    let s := { s with curPageNo := rid.pageNo }
    match plookup s.file.pages rid.pageNo with
    | some pg =>
      (OK, pg.getRecordP rid,
        { s with curPtr := some rid.pageNo, curDirtyFlag := false, curRec := rid },
        [.read rid.pageNo])
    | none =>
      -- readPage failed (status discarded); curPage stays NULL and the
      -- source dereferences it.
      (OK, none, { s with curDirtyFlag := false, curRec := rid }, [.read rid.pageNo])
  else
    let tr := [BufOp.unpin s.curPageNo s.curDirtyFlag, BufOp.read rid.pageNo]
    match plookup s.file.pages rid.pageNo with
    | some pg =>
      (OK, pg.getRecordP rid,
        { s with curPtr := some rid.pageNo, curPageNo := rid.pageNo,
                 curDirtyFlag := false, curRec := rid }, tr)
    | none =>
      -- readPage failed (status discarded); curPage is a stale pointer.
      (OK, none,
        { s with curPageNo := rid.pageNo, curDirtyFlag := false, curRec := rid }, tr)

/-- `HeapFileScan::startScan`, translated from the source (including the
always-false enum range checks, which are kept as written). -/
def startScan (s : HFS) (offset_ length_ : Int) (type_ : Datatype)
    (filter_ : Option (List Nat)) (op_ : Operator) : Status × HFS :=
  match filter_ with
  | none => (OK, { s with sp := { s.sp with filter := none } })
  | some f =>
    if (offset_ < 0 ∨ length_ < 1) ∨
        (type_ ≠ .STRING ∧ type_ ≠ .INTEGER ∧ type_ ≠ .FLOAT) ∨
        ((type_ = .INTEGER ∧ length_ ≠ 4) ∨ (type_ = .FLOAT ∧ length_ ≠ 4)) ∨
        (op_ ≠ .LT ∧ op_ ≠ .LTE ∧ op_ ≠ .EQ ∧ op_ ≠ .GTE ∧ op_ ≠ .GT ∧ op_ ≠ .NE) then
      (BADSCANPARM, s)
    else
      (OK, { s with sp :=
        { offset := offset_, length := length_, dtype := type_,
          filter := some f, op := op_ } })

/-- `HeapFileScan::endScan`: unpin the cursor page if present and clear the
cursor state. -/
def endScan (s : HFS) : Status × HFS × List BufOp :=
  match s.curPtr with
  | some _ =>
    (OK, { s with curPtr := none, curPageNo := 0, curDirtyFlag := false },
      [.unpin s.curPageNo s.curDirtyFlag])
  | none => (OK, s, [])

/-- `HeapFileScan::markScan`: snapshot `(curPageNo, curRec)`. -/
def markScan (s : HFS) : Status × HFS :=
  (OK, { s with markedPageNo := s.curPageNo, markedRec := s.curRec })

/-- `HeapFileScan::resetScan`, translated from the source: on a different
page, unpin the cursor (if pinned), restore `curPageNo`/`curRec`, read the
marked page and clear `curDirtyFlag`; on the same page, restore `curRec`
only. -/
def resetScan (s : HFS) : Status × HFS × List BufOp :=
  if s.markedPageNo ≠ s.curPageNo then
    let tr := match s.curPtr with
      | some _ => [BufOp.unpin s.curPageNo s.curDirtyFlag]
      | none => []
    let s := { s with curPageNo := s.markedPageNo, curRec := s.markedRec }
    match plookup s.file.pages s.curPageNo with
    | some _ =>
      (OK, { s with curPtr := some s.curPageNo, curDirtyFlag := false },
        tr ++ [.read s.curPageNo])
    | none =>
      -- readPage failed; the error is returned and curPage is left stale.
      (BADPAGENO, s, tr ++ [.read s.curPageNo])
  else (OK, { s with curRec := s.markedRec }, [])

/-- `HeapFileScan::deleteRecord`, translated from the source: delete
`curRec` from the cursor page and set `curDirtyFlag`, then decrement
`headerPage->recCnt` and set `hdrDirtyFlag` *unconditionally* — the
decrement happens even when the page layer reports `INVALIDSLOTNO`, and
that status is returned. -/
def scanDeleteRecord (s : HFS) : Status × HFS :=
  match s.curPtr with
  | none =>
    -- curPage is NULL here and the source dereferences it.
    (INVALIDSLOTNO, s)
  | some k =>
    match plookup s.file.pages k with
    | none =>
      -- curPage points at no resident frame; unreachable for a live cursor.
      (INVALIDSLOTNO, s)
    | some pg =>
      let (st, pg') := pg.deleteRecordS s.curRec
      let f := s.file
      let f := { f with pages := pupdate f.pages k pg',
                        hdr := { f.hdr with recCnt := f.hdr.recCnt - 1 } }
      (st, { s with file := f, curDirtyFlag := true, hdrDirtyFlag := true })

/-- `HeapFileScan::markDirty`. -/
def hfsMarkDirty (s : HFS) : Status × HFS :=
  (OK, { s with curDirtyFlag := true })

/-! ## `HeapFileScan::scanNext`

The source's record loop (`while (recStatus == OK)`) and page loop
(`while (pageStatus == OK && nextPageNo != -1)`) are translated as fueled
recursions; the top-level `scanNext` supplies fuel that is shown sufficient
for well-formed page chains.  `recStatus`/`nextRid` are threaded explicitly:
`nextRid` is an `Option` because the source discards the status of the
`firstRecord` call on the cursor-absent entry path and can enter the record
loop with `nextRid` never assigned (its indeterminate value is modelled as
`NULLRID`, and the record `getRecord` then fails to produce is modelled as an
empty record, mirroring the uninitialised locals the C code would read). -/

/-- The record loop of `scanNext`: starting from status `recStatus` and
candidate `nrid?`, return the first rid on `pg` whose record satisfies
`matchRec`, or `none` when the page is exhausted.  The status of the inner
`curPage->getRecord` call is discarded by the source, so a failed read
leaves an indeterminate record (modelled as `⟨[], 0⟩`). -/
def recLoop (sp : ScanParams) (pg : Page) (recStatus : Status)
    (nrid? : Option Rid) : Nat → Option Rid
  | 0 => none
  | fuel + 1 =>
    if recStatus = OK then
      let rid := nrid?.getD NULLRID
      let rec? := pg.getRecordP rid
      if matchRec sp (rec?.getD ⟨[], 0⟩) then some rid
      else
        match pg.nextRecordSN rid with
        | (st, nr) => recLoop sp pg st nr fuel
    else none

/-- Fuel that always suffices for `recLoop` on `pg`. -/
def recFuel (pg : Page) : Nat := pg.slots.length + 1

/-- The page loop of `scanNext`.  One iteration runs the record loop on the
current page; on success `curRec` is set and the rid returned.  Otherwise
the source reads `curPage->getNextPage` and *always* unpins the cursor and
calls `readPage` on the link — even when the link is the end sentinel `-1`,
in which case the read fails, the failure is discarded, `curPage` is left
stale, and the loop condition then exits with `FILEEOF`. -/
def scanOuter : Nat → HFS → Status → Option Rid → Int → List BufOp →
    Status × Option Rid × HFS × List BufOp
  | 0, s, _, _, _, tr =>
    -- fuel exhaustion; unreachable for well-formed page chains
    (FILEEOF, none, { s with curRec := NULLRID }, tr)
  | fuel + 1, s, recStatus, nrid?, nextPageNo, tr =>
    if nextPageNo = -1 then
      (FILEEOF, none, { s with curRec := NULLRID }, tr)
    else
      match s.curPtr.bind (plookup s.file.pages) with
      | none =>
        -- curPage dangles; the source would dereference an invalid pointer.
        (FILEEOF, none, { s with curRec := NULLRID }, tr)
      | some pg =>
        match recLoop s.sp pg recStatus nrid? (recFuel pg) with
        | some rid => (OK, some rid, { s with curRec := rid }, tr)
        | none =>
          let npn := pg.nextPage
          let tr := tr ++ [BufOp.unpin s.curPageNo s.curDirtyFlag]
          let s := { s with curDirtyFlag := false, curPageNo := npn }
          let tr := tr ++ [BufOp.read npn]
          match plookup s.file.pages npn with
          | some pg' =>
            let s := { s with curPtr := some npn }
            match pg'.firstRecordSN with
            | (rs, nr) => scanOuter fuel s rs nr npn tr
          | none =>
            -- readPage failed (status discarded); curPage stays stale and
            -- the source calls firstRecord through the stale pointer.
            let stale := s.curPtr.bind (plookup s.file.pages)
            match (stale.getD (Page.init 0)).firstRecordSN with
            | (rs, nr) => scanOuter fuel s rs nr npn tr

/-- Fuel that always suffices for the page loop on file `f`. -/
def pageFuel (f : HFile) : Nat := f.pages.length + 1

/-- `HeapFileScan::scanNext`, translated from the source.  With a NULL
cursor it reads `headerPage->firstPage` and positions at its first record,
discarding the `firstRecord` status; otherwise it advances from `curRec`
with `nextRecord`.  It then runs the page loop. -/
def scanNext (s : HFS) : Status × Option Rid × HFS × List BufOp :=
  match s.curPtr with
  | none =>
    let pno := s.file.hdr.firstPage
    let s := { s with curPageNo := pno }
    match plookup s.file.pages pno with
    | some pg =>
      let s := { s with curPtr := some pno, curDirtyFlag := false }
      -- curPage->firstRecord(nextRid): the status is discarded, so the
      -- record loop is entered with recStatus == OK even on an empty page.
      scanOuter (pageFuel s.file) s OK pg.firstRecordSN.2 0 [.read pno]
    | none =>
      -- readPage failed (status discarded); curPage is NULL and the source
      -- dereferences it.
      (FILEEOF, none, { s with curRec := NULLRID }, [.read pno])
  | some k =>
    match plookup s.file.pages k with
    | some pg =>
      match pg.nextRecordSN s.curRec with
      | (rs, nr) => scanOuter (pageFuel s.file) s rs nr 0 []
    | none =>
      -- curPage dangles; the source would dereference an invalid pointer.
      (FILEEOF, none, { s with curRec := NULLRID }, [])

/-- Iterate `scanNext`, collecting the rids of the `OK` results, stopping at
the first non-`OK` status (or after `n` successful calls). -/
def scanAll : Nat → HFS → List Rid × Status × HFS
  | 0, s => ([], OK, s)
  | n + 1, s =>
    match scanNext s with
    | (OK, some rid, s', _) =>
      let r := scanAll n s'
      (rid :: r.1, r.2.1, r.2.2)
    | (st, _, s', _) => ([], st, s')

/-! ## `InsertFileScan::insertRecord` -/

/-- `InsertFileScan::insertRecord`, translated from the source.  The length
guard compares `(unsigned int) rec.length` against `PAGESIZE - DPFIXED`, so
negative lengths are rejected.  With a NULL cursor the tail page is pinned
first.  On `NOSPACE` the cursor is unpinned, a page is allocated and
initialised, the old tail (`headerPage->lastPage`) is read and linked to it,
the old tail is unpinned with the *cleared* `curDirtyFlag`, the header's
`lastPage`/`pageCnt` are updated, and the insertion is retried on the new
page (its status discarded). -/
def insertRecord (s : HFS) (r : Rec) : Status × Option Rid × HFS × List BufOp :=
  if uint32 r.length > PAGESIZE - DPFIXED then
    -- will never fit on a page, so don't even bother looking
    (INVALIDRECLEN, none, s, [])
  else
    -- make curPage last page if null
    let pin : HFS × List BufOp :=
      match s.curPtr with
      | none =>
        let last := s.file.hdr.lastPage
        match plookup s.file.pages last with
        | some _ =>
          ({ s with curPageNo := last, curPtr := some last, curDirtyFlag := false },
            [.read last])
        | none =>
          -- readPage failed (status discarded); curPage stays NULL.
          ({ s with curPageNo := last, curDirtyFlag := false }, [.read last])
      | some _ => (s, [])
    let s := pin.1
    let tr := pin.2
    match s.curPtr with
    | none =>
      -- curPage is NULL here and the source dereferences it.
      (OK, none, s, tr)
    | some k =>
      match plookup s.file.pages k with
      | none =>
        -- curPage dangles; the source would dereference an invalid pointer.
        (OK, none, s, tr)
      | some pg =>
        match pg.insertRecordS r with
        | (OK, some (pg', rid)) =>
          let f := s.file
          let f := { f with pages := pupdate f.pages k pg',
                            hdr := { f.hdr with recCnt := f.hdr.recCnt + 1 } }
          (OK, some rid,
            { s with file := f, curDirtyFlag := true, hdrDirtyFlag := true }, tr)
        | _ =>
          -- NOSPACE: build a new last page and retry there
          let tr := tr ++ [BufOp.unpin s.curPageNo s.curDirtyFlag]
          let s := { s with curDirtyFlag := false }
          let newPageNo := s.file.nextAlloc
          let f := s.file
          let f := { f with pages := f.pages ++ [(newPageNo, Page.init newPageNo)],
                            nextAlloc := f.nextAlloc + 1 }
          let s := { s with file := f }
          let tr := tr ++ [BufOp.alloc newPageNo]
          let tailNo := s.file.hdr.lastPage
          let s := { s with curPageNo := tailNo }
          let tr := tr ++ [BufOp.read tailNo]
          match plookup s.file.pages tailNo with
          | none =>
            -- readPage failed; the source dereferences the unassigned pointer.
            (OK, none, s, tr)
          | some tailPg =>
            let f := s.file
            let f := { f with pages := pupdate f.pages tailNo
                                { tailPg with nextPage := newPageNo } }
            -- the old tail is unpinned with curDirtyFlag, which the source
            -- has just cleared, although setNextPage modified the page
            let tr := tr ++ [BufOp.unpin tailNo false]
            let f := { f with hdr := { f.hdr with lastPage := newPageNo,
                                                  pageCnt := f.hdr.pageCnt + 1 } }
            let s := { s with file := f, curPageNo := newPageNo,
                              curPtr := some newPageNo }
            let tr := tr ++ [BufOp.unpin newPageNo true, BufOp.read newPageNo]
            match plookup s.file.pages newPageNo with
            | none => (OK, none, s, tr)
            | some npg =>
              match npg.insertRecordS r with
              | (_, some (pg', rid)) =>
                let f := s.file
                let f := { f with pages := pupdate f.pages newPageNo pg',
                                  hdr := { f.hdr with recCnt := f.hdr.recCnt + 1 } }
                (OK, some rid,
                  { s with file := f, curDirtyFlag := true, hdrDirtyFlag := true }, tr)
              | (_, none) =>
                -- retry failed: rid is left indeterminate, yet the source
                -- still increments recCnt and returns OK
                let f := s.file
                let f := { f with hdr := { f.hdr with recCnt := f.hdr.recCnt + 1 } }
                (OK, none,
                  { s with file := f, curDirtyFlag := true, hdrDirtyFlag := true }, tr)

/-! ## Well-formedness and declarative descriptions -/

/-- `isChainB pages p ch` holds when following `nextPage` links from `p`
visits exactly the pages listed in `ch` and ends at the sentinel `-1`. -/
def isChainB (pages : List (Int × Page)) : Int → List Int → Bool
  | p, [] => p == -1
  | p, q :: rest =>
    p == q &&
      match plookup pages p with
      | some pg => isChainB pages pg.nextPage rest
      | none => false

/-- Follow `nextPage` links `n` times starting from page `p` (`none` when a
page on the way is missing).  One application of `nextPage` is one hop. -/
def followN (pages : List (Int × Page)) : Int → Nat → Option Int
  | p, 0 => some p
  | p, n + 1 =>
    match plookup pages p with
    | some pg => followN pages pg.nextPage n
    | none => none

/-- Structural well-formedness of the page store: keys are distinct, every
stored page records its own number, and all keys lie in `[1, nextAlloc)`
(page 0 is the header). -/
def pagesWfB (f : HFile) : Bool :=
  (f.pages.map Prod.fst).Nodup ∧
    f.pages.all fun e => e.2.pageNo == e.1 && 1 ≤ e.1 && e.1 < f.nextAlloc

/-- Well-formed heap file: structurally sound page store and a duplicate-free
page chain from `firstPage` of length `pageCnt` ending at `lastPage`. -/
def WfFile (f : HFile) : Prop :=
  pagesWfB f = true ∧
    ∃ ex : List Int,
      isChainB f.pages f.hdr.firstPage ex = true ∧ ex ≠ [] ∧ ex.Nodup ∧
        (ex.length : Int) = f.hdr.pageCnt ∧ ex.getLast? = some f.hdr.lastPage

/-- Live slot indices of a page, ascending. -/
def liveIdx (pg : Page) : List Nat :=
  (List.range pg.slots.length).filter fun i => (pg.slots.getD i none).isSome

/-- Rids of the live records of `pg` with slot number strictly greater than
`lo`, in slot order. -/
def ridsAfter (pg : Page) (lo : Int) : List Rid :=
  ((liveIdx pg).filter fun i : Nat => decide (lo < (i : Int))).map
    fun i : Nat => ⟨pg.pageNo, (i : Int)⟩

/-- All rids of the live records of `pg`, in slot order. -/
def pageRids (pg : Page) : List Rid := ridsAfter pg (-1)

/-- All live rids of the chain `ch`, in chain order then slot order. -/
def allRids (pages : List (Int × Page)) (ch : List Int) : List Rid :=
  ch.flatMap fun q => ((plookup pages q).map pageRids).getD []

/-- The record a rid identifies in a file. -/
def recAt (f : HFile) (rid : Rid) : Option Rec :=
  (plookup f.pages rid.pageNo).bind fun pg => pg.getRecordP rid

/-- Declarative contents of the record loop: the first rid after slot `lo`
on `pg` whose record matches the predicate. -/
def specFind (sp : ScanParams) (pg : Page) (lo : Int) : Option Rid :=
  (ridsAfter pg lo).find? fun rid =>
    matchRec sp (((pg.getRecordP rid).getD ⟨[], 0⟩))

/-- Declarative contents of the page loop: the first matching rid in the
chain suffix `ch`, starting after slot `lo` on the head page, together with
the chain suffix whose head is the page holding that rid. -/
def specFindChain (sp : ScanParams) (pages : List (Int × Page)) :
    List Int → Int → Option (Rid × List Int)
  | [], _ => none
  | p :: rest, lo =>
    match (plookup pages p).bind (fun pg => specFind sp pg lo) with
    | some rid => some (rid, p :: rest)
    | none => specFindChain sp pages rest (-1)

/-- The scan-side invariant: the cursor pointer and page number agree, and
the cursor page heads a duplicate-free chain suffix of the file. -/
def GoodS (s : HFS) : Prop :=
  pagesWfB s.file = true ∧ s.curPtr = some s.curPageNo ∧
    ∃ rest : List Int,
      isChainB s.file.pages s.curPageNo (s.curPageNo :: rest) = true ∧
        (s.curPageNo :: rest).Nodup

/-- Lexicographic three-way comparison of byte lists (a shorter list that is
a prefix of the other compares below it). -/
def lexCmp : List Nat → List Nat → Ordering
  | [], [] => .eq
  | [], _ :: _ => .lt
  | _ :: _, [] => .gt
  | a :: as, b :: bs => if a < b then .lt else if b < a then .gt else lexCmp as bs

/-- An `Ordering` as a `Sign3`. -/
def ordSign3 : Ordering → Sign3
  | .lt => .neg
  | .eq => .zero
  | .gt => .pos

/-- Modelled from the spec's words ("lexicographic byte comparison of
`length` bytes", "the three-valued sign from a bounded byte compare over
exactly `length` bytes"): a `memcmp`-style comparison of exactly `n` bytes,
with no sensitivity to embedded zero bytes.  This is the semantics the claim
attributes to the STRING branch and is compared against the source's
`strncmp`-based `matchRec`. -/
def memcmpSign (a b : List Nat) (n : Nat) : Sign3 :=
  ordSign3 (lexCmp ((a.take n).map (· % 256)) ((b.take n).map (· % 256)))

/-! ## Concrete runs used by the claims about error paths -/

/-- A one-record file built through the model: create, insert `⟨[9], 1⟩`,
then open a fresh scan handle on the resulting file. -/
def oneRecScan : HFS := openScan (insertRecord (openScan newHeapFile) ⟨[9], 1⟩).2.2.1.file

/-- First `scanNext` on the one-record file. -/
def oneRecStep1 : Status × Option Rid × HFS × List BufOp := scanNext oneRecScan

/-- Deleting the current record (succeeds). -/
def oneRecDel1 : Status × HFS := scanDeleteRecord oneRecStep1.2.2.1

/-- Deleting again at the same `curRec` (the slot is now empty). -/
def oneRecDel2 : Status × HFS := scanDeleteRecord oneRecDel1.2

/-- A two-page file built through the model: three records of length 400
inserted into a fresh file (two fit on page 1, the third forces the split
onto page 2). -/
def twoPageFile : HFile :=
  (insertRecord (insertRecord (insertRecord (openScan newHeapFile)
    ⟨[1], 400⟩).2.2.1 ⟨[2], 400⟩).2.2.1 ⟨[3], 400⟩).2.2.1.file

/-- Iterate `scanNext`, keeping only runs in which every call returns `OK`. -/
def iterOK : Nat → HFS → Option HFS
  | 0, s => some s
  | n + 1, s =>
    match scanNext s with
    | (OK, _, s2, _) => iterOK n s2
    | _ => none

/-- The scan state after the first `scanNext` on the two-page file. -/
def c9base : HFS := (scanNext (openScan twoPageFile)).2.2.1

/-- The state after marking at `c9base` and scanning one record forward. -/
def c9sn : HFS := (scanNext (markScan c9base).2).2.2.1

/-- A handle whose cursor page already holds a 10-byte record. -/
def c7state : HFS := (insertRecord (openScan newHeapFile) ⟨[1], 10⟩).2.2.1

/-- The cursor page of `c7state`. -/
def c7pg : Page := { pageNo := 1, slots := [some ⟨[1], 10⟩], nextPage := -1, free := 994 }

/-! ## The heap-file interface as an operation alphabet (for invariant I2/H2) -/

/-- One call through the public heap-file interface. -/
inductive FOp where
  | ins (r : Rec)
  | del
  | snext
  | getRec (rid : Rid)
  | sstart (off len : Int) (ty : Datatype) (fil : Option (List Nat)) (o : Operator)
  | send
  | smark
  | sreset
  | mdirty
  | reopen

/-- Apply one interface call to a handle, keeping the resulting state. -/
def applyFOp (s : HFS) : FOp → HFS
  | .ins r => (insertRecord s r).2.2.1
  | .del => (scanDeleteRecord s).2
  | .snext => (scanNext s).2.2.1
  | .getRec rid => (hfGetRecord s rid).2.2.1
  | .sstart off len ty fil o => (startScan s off len ty fil o).2
  | .send => (endScan s).2.1
  | .smark => (markScan s).2
  | .sreset => (resetScan s).2.1
  | .mdirty => (hfsMarkDirty s).2
  | .reopen => openScan s.file

/-- Apply a sequence of interface calls, left to right. -/
def applyFOps (ops : List FOp) (s : HFS) : HFS := ops.foldl applyFOp s

/-- Invariant I2/H2 in its amended form: at least one page, following
`nextPage` links from `firstPage` reaches `lastPage` in exactly
`pageCnt - 1` hops, and the tail's link is the end sentinel `-1`. -/
def ChainReach (f : HFile) : Prop :=
  1 ≤ f.hdr.pageCnt ∧
  followN f.pages f.hdr.firstPage (f.hdr.pageCnt - 1).toNat = some f.hdr.lastPage ∧
  ∃ lpg, plookup f.pages f.hdr.lastPage = some lpg ∧ lpg.nextPage = -1


/-! ## List and lookup lemmas -/

theorem find?_eq_head?_filter {α : Type} (l : List α) (p : α → Bool) :
    l.find? p = (l.filter p).head? := by
  induction l with
  | nil => rfl
  | cons a t ih =>
    rw [List.find?_cons, List.filter_cons]
    by_cases h : p a
    · simp [h]
    · simp only [h, Bool.false_eq_true, if_false]
      exact ih

theorem nodup_length_le {α : Type} [DecidableEq α] (l₁ l₂ : List α)
    (h : l₁.Nodup) (hs : ∀ a ∈ l₁, a ∈ l₂) : l₁.length ≤ l₂.length := by
  calc l₁.length = l₁.toFinset.card := (List.toFinset_card_of_nodup h).symm
    _ ≤ l₂.toFinset.card := Finset.card_le_card (fun a ha => by
        rw [List.mem_toFinset] at ha ⊢; exact hs a ha)
    _ ≤ l₂.length := l₂.toFinset_card_le

/-- Head decomposition of a filtered ascending list: the tail of
`l.filter (lo < ·)` is `l.filter (i < ·)` where `i` is the head. -/
theorem filter_lt_tail (l : List Nat) (hl : l.Pairwise (· < ·)) (lo : Int) (i : Nat)
    (t : List Nat)
    (h : l.filter (fun j : Nat => decide (lo < (j : Int))) = i :: t) :
    t = l.filter (fun j : Nat => decide ((i : Int) < (j : Int))) := by
  induction l with
  | nil => simp at h
  | cons a l' ih =>
    rw [List.filter_cons] at h
    rcases List.pairwise_cons.mp hl with ⟨ha, hl'⟩
    by_cases hpa : lo < (a : Int)
    · rw [if_pos (by simpa using hpa)] at h
      have hai : a = i := (List.cons.injEq _ _ _ _ ▸ h).1
      have ht : l'.filter (fun j : Nat => decide (lo < (j : Int))) = t :=
        (List.cons.injEq _ _ _ _ ▸ h).2
      subst hai
      rw [List.filter_cons, if_neg (by simp)]
      have h1 : l'.filter (fun j : Nat => decide (lo < (j : Int))) = l' := by
        apply List.filter_eq_self.mpr
        intro b hb
        simp only [decide_eq_true_eq]
        exact lt_of_lt_of_le hpa (by exact_mod_cast (ha b hb).le)
      have h2 : l'.filter (fun j : Nat => decide ((a : Int) < (j : Int))) = l' := by
        apply List.filter_eq_self.mpr
        intro b hb
        simp only [decide_eq_true_eq]
        exact_mod_cast ha b hb
      rw [h2, ← ht, h1]
    · rw [if_neg (by simpa using hpa)] at h
      have hi : i ∈ l'.filter (fun j : Nat => decide (lo < (j : Int))) :=
        h ▸ List.mem_cons_self i t
      have hia : (a : Int) ≤ lo := not_lt.mp hpa
      have hilo : lo < (i : Int) := by
        have := List.of_mem_filter hi
        simpa using this
      rw [List.filter_cons,
        if_neg (by simp only [decide_eq_true_eq]; exact not_lt.mpr (le_of_lt (lt_of_le_of_lt hia hilo)))]
      exact ih hl' h

theorem plookup_cons (e : Int × Page) (t : List (Int × Page)) (k : Int) :
    plookup (e :: t) k = if e.1 = k then some e.2 else plookup t k := by
  by_cases h : e.1 = k
  · unfold plookup
    rw [List.find?_cons, if_pos h]
    have hb : (e.1 == k) = true := by simp [h]
    rw [hb]
  · unfold plookup
    rw [List.find?_cons, if_neg h]
    have hb : (e.1 == k) = false := by simp [h]
    rw [hb]

theorem pupdate_cons (e : Int × Page) (t : List (Int × Page)) (k : Int) (pg : Page) :
    pupdate (e :: t) k pg = (if e.1 = k then (k, pg) else e) :: pupdate t k pg := by
  unfold pupdate
  rw [List.map_cons]
  by_cases h : e.1 = k <;> simp [h]

theorem plookup_mem_keys (l : List (Int × Page)) (k : Int) (pg : Page)
    (h : plookup l k = some pg) : (k, pg) ∈ l ∧ k ∈ l.map Prod.fst := by
  induction l with
  | nil => simp [plookup] at h
  | cons e t ih =>
    rw [plookup_cons] at h
    by_cases he : e.1 = k
    · rw [if_pos he] at h
      cases h
      refine ⟨?_, ?_⟩
      · have : e = (k, e.2) := by rw [← he]
        exact this ▸ List.mem_cons_self e t
      · exact List.mem_map.mpr ⟨e, List.mem_cons_self e t, he⟩
    · rw [if_neg he] at h
      rcases ih h with ⟨h1, h2⟩
      exact ⟨List.mem_cons_of_mem e h1, by rw [List.map_cons]; exact List.mem_cons_of_mem _ h2⟩

/-- `pupdate` leaves every key in place. -/
theorem pupdate_keys (l : List (Int × Page)) (k : Int) (pg : Page) :
    (pupdate l k pg).map Prod.fst = l.map Prod.fst := by
  induction l with
  | nil => rfl
  | cons e t ih =>
    rw [pupdate_cons, List.map_cons, List.map_cons, ih]
    congr 1
    by_cases h : e.1 = k <;> simp [h]

theorem plookup_pupdate_ne (l : List (Int × Page)) (k k' : Int) (pg : Page)
    (h : k' ≠ k) : plookup (pupdate l k pg) k' = plookup l k' := by
  induction l with
  | nil => rfl
  | cons e t ih =>
    rw [pupdate_cons, plookup_cons, plookup_cons]
    by_cases he : e.1 = k
    · rw [if_pos he, if_neg (by simpa using Ne.symm h), if_neg (he ▸ Ne.symm h)]
      exact ih
    · rw [if_neg he]
      by_cases hk : e.1 = k'
      · rw [if_pos hk, if_pos hk]
      · rw [if_neg hk, if_neg hk]
        exact ih

theorem plookup_pupdate_self (l : List (Int × Page)) (k : Int) (pg pg0 : Page)
    (h : plookup l k = some pg0) : plookup (pupdate l k pg) k = some pg := by
  induction l with
  | nil => simp [plookup] at h
  | cons e t ih =>
    rw [plookup_cons] at h
    rw [pupdate_cons, plookup_cons]
    by_cases he : e.1 = k
    · rw [if_pos (show (if e.1 = k then (k, pg) else e).1 = k by rw [if_pos he])]
      rw [if_pos he]
    · rw [if_neg he] at h
      rw [if_neg (by rw [if_neg he]; exact he)]
      exact ih h

theorem plookup_append (l₁ l₂ : List (Int × Page)) (k : Int) :
    plookup (l₁ ++ l₂) k =
      match plookup l₁ k with
      | some pg => some pg
      | none => plookup l₂ k := by
  unfold plookup
  rw [List.find?_append]
  cases h : l₁.find? (fun e => e.1 == k) <;> simp [Option.orElse]

/-- Extending the store on the right preserves successful lookups. -/
theorem plookup_append_of_some (l₁ l₂ : List (Int × Page)) (k : Int) (pg : Page)
    (h : plookup l₁ k = some pg) : plookup (l₁ ++ l₂) k = some pg := by
  rw [plookup_append, h]

/-! ## Chain lemmas -/

theorem bool_eq_of_iff {a b : Bool} (h : a = true ↔ b = true) : a = b := by
  cases a <;> cases b <;> simp_all

theorem isChainB_cons_iff (pages : List (Int × Page)) (p q : Int) (rest : List Int) :
    isChainB pages p (q :: rest) = true ↔
      p = q ∧ ∃ pg, plookup pages p = some pg ∧ isChainB pages pg.nextPage rest = true := by
  have hdef : isChainB pages p (q :: rest) =
      (p == q &&
        match plookup pages p with
        | some pg => isChainB pages pg.nextPage rest
        | none => false) := rfl
  rw [hdef]
  constructor
  · intro h
    rcases Bool.and_eq_true_iff.mp h with ⟨h1, h2⟩
    refine ⟨by simpa using h1, ?_⟩
    cases hl : plookup pages p with
    | none => rw [hl] at h2; exact absurd h2 (by simp)
    | some pg => rw [hl] at h2; exact ⟨pg, rfl, h2⟩
  · rintro ⟨rfl, pg, hl, hc⟩
    rw [hl]
    simpa using hc

theorem isChainB_mem_lookup (pages : List (Int × Page)) :
    ∀ (ch : List Int) (p : Int), isChainB pages p ch = true →
      ∀ q ∈ ch, (plookup pages q).isSome := by
  intro ch
  induction ch with
  | nil => intro p _ q hq; simp at hq
  | cons a rest ih =>
    intro p h q hq
    rcases (isChainB_cons_iff pages p a rest).mp h with ⟨rfl, pg, hl, hc⟩
    rcases List.mem_cons.mp hq with rfl | hq'
    · rw [hl]; rfl
    · exact ih pg.nextPage hc q hq'

/-- Chains are deterministic when the sentinel is not a key: the list of
pages reached from `p` is unique. -/
theorem isChainB_unique (pages : List (Int × Page))
    (hneg : plookup pages (-1) = none) :
    ∀ (ch₁ ch₂ : List Int) (p : Int),
      isChainB pages p ch₁ = true → isChainB pages p ch₂ = true → ch₁ = ch₂ := by
  intro ch₁
  induction ch₁ with
  | nil =>
    intro ch₂ p h1 h2
    have hp : p = -1 := by simpa [isChainB] using h1
    cases ch₂ with
    | nil => rfl
    | cons b rest =>
      rcases (isChainB_cons_iff pages p b rest).mp h2 with ⟨_, pg, hl, _⟩
      rw [hp, hneg] at hl
      exact absurd hl (by simp)
  | cons a rest ih =>
    intro ch₂ p h1 h2
    rcases (isChainB_cons_iff pages p a rest).mp h1 with ⟨ha, pg, hl, hc1⟩
    cases ch₂ with
    | nil =>
      have hp : p = -1 := by simpa [isChainB] using h2
      rw [hp, hneg] at hl
      exact absurd hl (by simp)
    | cons b rest₂ =>
      rcases (isChainB_cons_iff pages p b rest₂).mp h2 with ⟨hb, pg₂, hl₂, hc2⟩
      rw [hl] at hl₂
      cases hl₂
      rw [← ha, ← hb]
      exact congrArg (fun l => p :: l) (ih rest₂ pg.nextPage hc1 hc2)

/-- `isChainB` only inspects presence and `nextPage` of looked-up pages. -/
theorem isChainB_congr (pages pages' : List (Int × Page))
    (h : ∀ q, (plookup pages' q).map Page.nextPage = (plookup pages q).map Page.nextPage) :
    ∀ (ch : List Int) (p : Int), isChainB pages' p ch = isChainB pages p ch := by
  intro ch
  induction ch with
  | nil => intro p; rfl
  | cons a rest ih =>
    intro p
    have hq := h p
    apply bool_eq_of_iff
    cases hl : plookup pages p with
    | none =>
      rw [hl] at hq
      have hl' : plookup pages' p = none := by
        cases hx : plookup pages' p with
        | none => rfl
        | some pgx => rw [hx] at hq; simp at hq
      constructor
      · intro hh
        rcases (isChainB_cons_iff pages' p a rest).mp hh with ⟨_, pgx, hlx, _⟩
        rw [hl'] at hlx; exact absurd hlx (by simp)
      · intro hh
        rcases (isChainB_cons_iff pages p a rest).mp hh with ⟨_, pgx, hlx, _⟩
        rw [hl] at hlx; exact absurd hlx (by simp)
    | some pg =>
      rw [hl] at hq
      have hex : ∃ pg', plookup pages' p = some pg' ∧ pg'.nextPage = pg.nextPage := by
        cases hx : plookup pages' p with
        | none => rw [hx] at hq; simp at hq
        | some pg' => rw [hx] at hq; exact ⟨pg', rfl, by simpa using hq⟩
      rcases hex with ⟨pg', hl', hnext⟩
      rw [isChainB_cons_iff, isChainB_cons_iff]
      constructor
      · rintro ⟨rfl, pgx, hlx, hcx⟩
        rw [hl'] at hlx
        cases hlx
        refine ⟨rfl, pg, hl, ?_⟩
        rw [← hnext, ← ih pg'.nextPage]
        exact hcx
      · rintro ⟨rfl, pgx, hlx, hcx⟩
        rw [hl] at hlx
        cases hlx
        refine ⟨rfl, pg', hl', ?_⟩
        rw [hnext, ih pg.nextPage]
        exact hcx

/-- A chain restricted to a suffix is again a chain from the suffix head. -/
theorem isChainB_suffix (pages : List (Int × Page)) :
    ∀ (pre : List Int) (q : Int) (rest : List Int) (p : Int),
      isChainB pages p (pre ++ q :: rest) = true → isChainB pages q (q :: rest) = true := by
  intro pre
  induction pre with
  | nil =>
    intro q rest p h
    rcases (isChainB_cons_iff pages p q rest).mp h with ⟨rfl, pg, hl, hc⟩
    exact (isChainB_cons_iff pages p p rest).mpr ⟨rfl, pg, hl, hc⟩
  | cons a pre' ih =>
    intro q rest p h
    rcases (isChainB_cons_iff pages p a (pre' ++ q :: rest)).mp h with ⟨rfl, pg, _, hc⟩
    exact ih q rest pg.nextPage hc

/-- Chain members with distinct entries number at most the store's size. -/
theorem chain_length_le (pages : List (Int × Page)) (ch : List Int) (p : Int)
    (hc : isChainB pages p ch = true) (hn : ch.Nodup) : ch.length ≤ pages.length := by
  have hsub : ∀ q ∈ ch, q ∈ pages.map Prod.fst := by
    intro q hq
    have := isChainB_mem_lookup pages ch p hc q hq
    cases hl : plookup pages q with
    | none => rw [hl] at this; exact absurd this (by simp)
    | some pg => exact (plookup_mem_keys pages q pg hl).2
  calc ch.length ≤ (pages.map Prod.fst).length := nodup_length_le ch _ hn hsub
    _ = pages.length := by rw [List.length_map]

/-! ## Bounded byte comparison (spec semantics) and the strncmp characterisation -/


theorem strncmpS_nil_nil (n : Nat) : strncmpS [] [] (n + 1) = 0 := by
  conv_lhs => unfold strncmpS
  simp

theorem strncmpS_nil_cons (y : Nat) (bs : List Nat) (n : Nat) :
    strncmpS [] (y :: bs) (n + 1) =
      if (0 : Nat) ≠ y % 256 then (0 : Int) - ((y % 256 : Nat) : Int) else 0 := by
  conv_lhs => unfold strncmpS
  simp only [List.headD_nil, List.headD_cons, Nat.zero_mod]
  by_cases h : (0 : Nat) ≠ y % 256
  · rw [if_pos h, if_pos h]
    simp
  · rw [if_neg h, if_neg h]
    simp

theorem strncmpS_cons_nil (x : Nat) (as : List Nat) (n : Nat) :
    strncmpS (x :: as) [] (n + 1) =
      if x % 256 ≠ 0 then ((x % 256 : Nat) : Int) - 0 else 0 := by
  conv_lhs => unfold strncmpS
  simp only [List.headD_nil, List.headD_cons, Nat.zero_mod]
  by_cases h : x % 256 ≠ (0 : Nat)
  · rw [if_pos h, if_pos h]
    simp
  · rw [if_neg h, if_neg h, if_pos (not_ne_iff.mp h)]

theorem strncmpS_cons_cons (x y : Nat) (as bs : List Nat) (n : Nat) :
    strncmpS (x :: as) (y :: bs) (n + 1) =
      if x % 256 ≠ y % 256 then ((x % 256 : Nat) : Int) - ((y % 256 : Nat) : Int)
      else if x % 256 = 0 then 0 else strncmpS as bs n := by
  conv_lhs => unfold strncmpS
  simp only [List.headD_cons, List.tail_cons]

/-- What the source's `strncmp` actually computes: the lexicographic
comparison of the two windows truncated at their null bytes. -/
theorem strncmpS_sign (n : Nat) : ∀ (a b : List Nat),
    (∀ x ∈ a, x < 256) → (∀ x ∈ b, x < 256) →
    sign3 (strncmpS a b n) =
      ordSign3 (lexCmp ((a.take n).takeWhile (· ≠ 0)) ((b.take n).takeWhile (· ≠ 0))) := by
  induction n with
  | zero => intro a b _ _; simp [strncmpS, lexCmp, ordSign3, sign3]
  | succ n ih =>
    intro a b ha hb
    cases a with
    | nil =>
      cases b with
      | nil => rw [strncmpS_nil_nil]; simp [lexCmp, ordSign3, sign3]
      | cons y bs =>
        have hy : y < 256 := hb y (List.mem_cons_self y bs)
        have hym : y % 256 = y := Nat.mod_eq_of_lt hy
        rw [strncmpS_nil_cons]
        simp only [List.take_nil, List.takeWhile_nil, List.take_succ_cons,
          List.takeWhile_cons, hym]
        by_cases hy0 : y = 0
        · subst hy0
          rw [if_neg (by simp), if_neg (by simp)]
          simp [lexCmp, ordSign3, sign3]
        · rw [if_pos (Ne.symm hy0), if_pos (by simpa using hy0)]
          have hneg : (0 : Int) - (y : Int) < 0 := by
            have : 0 < y := Nat.pos_of_ne_zero hy0
            omega
          have hs : sign3 ((0 : Int) - (y : Int)) = .neg := by
            unfold sign3
            rw [if_pos hneg]
          rw [hs]
          rfl
    | cons x as =>
      have hx : x < 256 := ha x (List.mem_cons_self x as)
      have hxm : x % 256 = x := Nat.mod_eq_of_lt hx
      cases b with
      | nil =>
        rw [strncmpS_cons_nil]
        simp only [List.take_nil, List.takeWhile_nil, List.take_succ_cons,
          List.takeWhile_cons, hxm]
        by_cases hx0 : x = 0
        · subst hx0
          rw [if_neg (by simp), if_neg (by simp)]
          simp [lexCmp, ordSign3, sign3]
        · rw [if_pos hx0, if_pos (by simpa using hx0)]
          have hpos : (0 : Int) < (x : Int) - 0 := by
            have : 0 < x := Nat.pos_of_ne_zero hx0
            omega
          have h1 : ¬ (x : Int) - 0 < 0 := by omega
          have h2 : ¬ (x : Int) - 0 = 0 := by omega
          have hs : sign3 ((x : Int) - 0) = .pos := by
            unfold sign3
            rw [if_neg h1, if_neg h2]
          rw [hs]
          rfl
      | cons y bs =>
        have hy : y < 256 := hb y (List.mem_cons_self y bs)
        have hym : y % 256 = y := Nat.mod_eq_of_lt hy
        rw [strncmpS_cons_cons]
        simp only [List.take_succ_cons, List.takeWhile_cons, hxm, hym]
        by_cases hxy : x = y
        · subst hxy
          rw [if_neg (by simp)]
          by_cases hx0 : x = 0
          · subst hx0
            rw [if_pos rfl, if_neg (by simp), if_neg (by simp)]
            simp [lexCmp, ordSign3, sign3]
          · rw [if_neg hx0, if_pos (by simpa using hx0), if_pos (by simpa using hx0)]
            have hlex : lexCmp (x :: (as.take n).takeWhile (· ≠ 0))
                (x :: (bs.take n).takeWhile (· ≠ 0)) =
                lexCmp ((as.take n).takeWhile (· ≠ 0)) ((bs.take n).takeWhile (· ≠ 0)) := by
              conv_lhs => unfold lexCmp
              rw [if_neg (lt_irrefl x), if_neg (lt_irrefl x)]
            rw [hlex]
            exact ih as bs (fun z hz => ha z (List.mem_cons_of_mem x hz))
              (fun z hz => hb z (List.mem_cons_of_mem x hz))
        · rw [if_pos hxy]
          by_cases hx0 : x = 0
          · subst hx0
            have hy0 : y ≠ 0 := fun h => hxy h.symm
            rw [if_neg (by simp), if_pos (by simpa using hy0)]
            simp only [Nat.cast_zero]
            have hneg : (0 : Int) - (y : Int) < 0 := by
              have : 0 < y := Nat.pos_of_ne_zero hy0
              omega
            have hs : sign3 ((0 : Int) - (y : Int)) = .neg := by
              unfold sign3
              rw [if_pos hneg]
            rw [hs]
            rfl
          · by_cases hy0 : y = 0
            · subst hy0
              rw [if_pos (by simpa using hx0), if_neg (by simp)]
              simp only [Nat.cast_zero]
              have h1 : ¬ (x : Int) - 0 < 0 := by
                have : 0 < x := Nat.pos_of_ne_zero hx0
                omega
              have h2 : ¬ (x : Int) - 0 = 0 := by
                have : 0 < x := Nat.pos_of_ne_zero hx0
                omega
              have hs : sign3 ((x : Int) - 0) = .pos := by
                unfold sign3
                rw [if_neg h1, if_neg h2]
              rw [hs]
              rfl
            · rw [if_pos (by simpa using hx0), if_pos (by simpa using hy0)]
              rcases Nat.lt_or_ge x y with hlt | hge
              · have hneg : (x : Int) - (y : Int) < 0 := by omega
                have hlex : lexCmp (x :: (as.take n).takeWhile (· ≠ 0))
                    (y :: (bs.take n).takeWhile (· ≠ 0)) = .lt := by
                  unfold lexCmp
                  rw [if_pos hlt]
                rw [hlex]
                have hs : sign3 ((x : Int) - (y : Int)) = .neg := by
                  unfold sign3
                  rw [if_pos hneg]
                rw [hs]
                rfl
              · have hgt : y < x := lt_of_le_of_ne hge (Ne.symm hxy)
                have h1 : ¬ (x : Int) - (y : Int) < 0 := by omega
                have h2 : ¬ (x : Int) - (y : Int) = 0 := by omega
                have hlex : lexCmp (x :: (as.take n).takeWhile (· ≠ 0))
                    (y :: (bs.take n).takeWhile (· ≠ 0)) = .gt := by
                  unfold lexCmp
                  rw [if_neg (Nat.lt_asymm hgt), if_pos hgt]
                rw [hlex]
                have hs : sign3 ((x : Int) - (y : Int)) = .pos := by
                  unfold sign3
                  rw [if_neg h1, if_neg h2]
                rw [hs]
                rfl


/-- C2: `HeapFile::getRecord` discards the page layer's status.  On the
one-record file, slot 5 of page 1 holds no record and the page layer
reports `INVALIDSLOTNO`, yet `getRecord` returns `OK`, leaves the output
record unassigned, and still sets `curRec` to the nonexistent rid. -/
theorem c2_getRecord_ignores_slot_error :
    (plookup oneRecScan.file.pages 1).map (fun pg => pg.getRecSt ⟨1, 5⟩) =
        some INVALIDSLOTNO ∧
    recAt oneRecScan.file ⟨1, 5⟩ = none ∧
    (hfGetRecord oneRecScan ⟨1, 5⟩).1 = OK ∧
    (hfGetRecord oneRecScan ⟨1, 5⟩).2.1 = none ∧
    (hfGetRecord oneRecScan ⟨1, 5⟩).2.2.1.curRec = ⟨1, 5⟩ := by
  refine ⟨rfl, rfl, rfl, rfl, rfl⟩

/-- C3: `HeapFileScan::deleteRecord` decrements `recCnt` even when the page
layer fails.  After one successful insert and one successful delete the
count is 0, but a second delete returns `INVALIDSLOTNO` and still
decrements, leaving `recCnt = -1` although successful inserts minus
successful deletes is `1 - 1 = 0`. -/
theorem c3_failed_delete_decrements_recCnt :
    (insertRecord (openScan newHeapFile) ⟨[9], 1⟩).1 = OK ∧
    oneRecStep1.1 = OK ∧
    oneRecDel1.1 = OK ∧
    getRecCnt oneRecDel1.2 = 0 ∧
    oneRecDel2.1 = INVALIDSLOTNO ∧
    getRecCnt oneRecDel2.2 = -1 := by
  refine ⟨rfl, rfl, rfl, rfl, rfl, rfl⟩

/-- C4: `createHeapFile` on an existing file returns `FILEEXISTS` but never
closes the handle `db.openFile` just produced: the open-handle multiset
gains `"t"` instead of staying empty. -/
theorem c4_create_existing_leaves_file_open :
    createHeapFile ⟨[("t", newHeapFile)], []⟩ "t" =
      (FILEEXISTS, ⟨[("t", newHeapFile)], ["t"]⟩) ∧
    (⟨[("t", newHeapFile)], []⟩ : FS).openHandles = [] := by
  exact ⟨rfl, rfl⟩

/-- C6 counterexample: on a freshly created file (`pageCnt = 1`,
`firstPage = lastPage = 1`), following `nextPage` for `pageCnt` hops lands
on the sentinel `-1`, not on `lastPage`: the chain reaches `lastPage` after
`pageCnt - 1` hops, so the claim's "exactly `pageCnt` hops" is off by one. -/
theorem c6_counterexample_pageCnt_hops :
    (createHeapFile ⟨[], []⟩ "t").2.files = [("t", newHeapFile)] ∧
    newHeapFile.hdr.pageCnt = 1 ∧
    newHeapFile.hdr.firstPage = 1 ∧
    newHeapFile.hdr.lastPage = 1 ∧
    followN newHeapFile.pages newHeapFile.hdr.firstPage 1 = some (-1) ∧
    followN newHeapFile.pages newHeapFile.hdr.firstPage 1 ≠
      some newHeapFile.hdr.lastPage := by
  refine ⟨rfl, rfl, rfl, rfl, rfl, by decide⟩

/-- C8 counterexample: a STRING filter of length 3 whose bytes share a zero
byte with the record window at position 1 but differ at position 2.  The
bounded byte compare of the spec sees the difference (sign `neg`, so `NE`
matches), but the source's `strncmp` stops at the common zero byte and
returns equality, so `matchRec` rejects the record. -/
theorem c8_counterexample_embedded_zero :
    ((0 : Int) + 3 - 1 < 3) ∧
    memcmpSign [97, 0, 98] [97, 0, 99] 3 = .neg ∧
    applyOp .NE (memcmpSign [97, 0, 98] [97, 0, 99] 3) = true ∧
    matchRec ⟨0, 3, .STRING, some [97, 0, 99], .NE⟩ ⟨[97, 0, 98], 3⟩ = false := by
  refine ⟨by decide, by decide, by decide, by decide⟩

/-- C8 amended: for a STRING filter the source applies the operator to the
three-valued sign of a `strncmp` over at most `length` bytes — the
lexicographic comparison of the two windows truncated at their null bytes —
so bytes after a zero byte shared by both windows do not participate. -/
theorem c8_amended_strncmp_semantics (sp : ScanParams) (r : Rec) (f : List Nat)
    (hty : sp.dtype = .STRING) (hf : sp.filter = some f)
    (hrb : ∀ x ∈ r.data, x < 256) (hfb : ∀ x ∈ f, x < 256) :
    matchRec sp r =
      (decide (sp.offset + sp.length - 1 < r.length) &&
        applyOp sp.op (ordSign3 (lexCmp
          (((r.data.drop sp.offset.toNat).take sp.length.toNat).takeWhile (· ≠ 0))
          ((f.take sp.length.toNat).takeWhile (· ≠ 0))))) := by
  unfold matchRec
  rw [hf]
  dsimp only
  by_cases hb : sp.offset + sp.length - 1 ≥ r.length
  · rw [if_pos hb]
    have : ¬ (sp.offset + sp.length - 1 < r.length) := not_lt.mpr hb
    simp [this]
  · rw [if_neg hb]
    rw [hty]
    have hd : ∀ x ∈ r.data.drop sp.offset.toNat, x < 256 := by
      intro x hx
      exact hrb x (List.mem_of_mem_drop hx)
    rw [strncmpS_sign sp.length.toNat (r.data.drop sp.offset.toNat) f hd hfb]
    have : sp.offset + sp.length - 1 < r.length := not_le.mp hb
    simp [this]

/-- Witness for the amended C8 statement, at the counterexample's input. -/
theorem c8_amended_witness :
    matchRec ⟨0, 3, .STRING, some [97, 0, 99], .NE⟩ ⟨[97, 0, 98], 3⟩ =
      (decide ((0 : Int) + 3 - 1 < 3) &&
        applyOp .NE (ordSign3 (lexCmp
          ((([97, 0, 98].drop (0 : Int).toNat).take (3 : Int).toNat).takeWhile (· ≠ 0))
          (([97, 0, 99].take (3 : Int).toNat).takeWhile (· ≠ 0))))) :=
  c8_amended_strncmp_semantics ⟨0, 3, .STRING, some [97, 0, 99], .NE⟩
    ⟨[97, 0, 98], 3⟩ [97, 0, 99] rfl rfl (by decide) (by decide)

/-- C10: every record whose (32-bit representable) length is negative is
rejected with `INVALIDRECLEN` before any page is touched, because the
source compares `(unsigned int) rec.length` — at least `2^31` for a
negative length — against `PAGESIZE - DPFIXED`. -/
theorem c10_negative_length_rejected (s : HFS) (r : Rec)
    (h1 : r.length < 0) (h2 : -(2 ^ 31) ≤ r.length) :
    insertRecord s r = (INVALIDRECLEN, none, s, []) := by
  have hc : uint32 r.length > PAGESIZE - DPFIXED := by
    unfold uint32 PAGESIZE DPFIXED
    omega
  unfold insertRecord
  rw [if_pos hc]

/-- Witness for C10 at length `-1`. -/
theorem c10_witness :
    insertRecord (openScan newHeapFile) ⟨[], -1⟩ =
      (INVALIDRECLEN, none, openScan newHeapFile, []) :=
  c10_negative_length_rejected (openScan newHeapFile) ⟨[], -1⟩ (by decide) (by decide)

/-! ## Record-loop lemmas -/

/-- `liveIdx` is strictly ascending. -/
theorem liveIdx_pairwise (pg : Page) : (liveIdx pg).Pairwise (· < ·) :=
  (List.pairwise_lt_range pg.slots.length).filter _

/-- `firstLiveIdx` is the head of the filtered live-index list. -/
theorem firstLiveIdx_eq_head (slots : List (Option Rec)) (lo : Int) :
    firstLiveIdx slots lo =
      (((List.range slots.length).filter fun i => (slots.getD i none).isSome).filter
        fun i : Nat => decide (lo < (i : Int))).head? := by
  unfold firstLiveIdx
  rw [find?_eq_head?_filter, List.filter_filter]

/-- One unfolding step of the record loop. -/
theorem recLoop_succ (sp : ScanParams) (pg : Page) (st : Status)
    (nr : Option Rid) (fuel : Nat) :
    recLoop sp pg st nr (fuel + 1) =
      if st = OK then
        if matchRec sp ((pg.getRecordP (nr.getD NULLRID)).getD ⟨[], 0⟩) then
          some (nr.getD NULLRID)
        else
          match pg.nextRecordSN (nr.getD NULLRID) with
          | (st2, nr2) => recLoop sp pg st2 nr2 fuel
      else none := rfl

theorem ridsAfter_eq_nil (pg : Page) (lo : Int)
    (h : firstLiveIdx pg.slots lo = none) : ridsAfter pg lo = [] := by
  unfold ridsAfter liveIdx
  rw [firstLiveIdx_eq_head] at h
  rw [List.head?_eq_none_iff.mp h]
  rfl

theorem ridsAfter_cons (pg : Page) (lo : Int) (i : Nat)
    (h : firstLiveIdx pg.slots lo = some i) :
    ridsAfter pg lo = ⟨pg.pageNo, (i : Int)⟩ :: ridsAfter pg ((i : Int)) ∧
      lo < (i : Int) ∧ (pg.slots.getD i none).isSome = true := by
  rw [firstLiveIdx_eq_head] at h
  set L := (List.range pg.slots.length).filter fun i => (pg.slots.getD i none).isSome with hL
  have hpair : L.Pairwise (· < ·) := liveIdx_pairwise pg
  cases hfl : L.filter (fun i : Nat => decide (lo < (i : Int))) with
  | nil => rw [hfl] at h; exact absurd h (by simp)
  | cons j t =>
    rw [hfl] at h
    have hji : j = i := by simpa using h
    subst hji
    have ht : t = L.filter (fun k : Nat => decide ((j : Int) < (k : Int))) :=
      filter_lt_tail L hpair lo j t hfl
    have hjmem : j ∈ L.filter (fun i : Nat => decide (lo < (i : Int))) := by
      rw [hfl]; exact List.mem_cons_self j t
    have hjlo : lo < (j : Int) := by simpa using List.of_mem_filter hjmem
    have hjlive : (pg.slots.getD j none).isSome = true := by
      have := List.mem_filter.mp (List.mem_of_mem_filter hjmem)
      simpa using this.2
    refine ⟨?_, hjlo, hjlive⟩
    show ((liveIdx pg).filter fun i : Nat => decide (lo < (i : Int))).map
        (fun i : Nat => (⟨pg.pageNo, (i : Int)⟩ : Rid)) = _
    rw [show liveIdx pg = L from rfl, hfl, List.map_cons, ht]
    rfl

/-- `Page.getRecordP` at a natural slot index reads the slot directly. -/
theorem getRecordP_nat (pg : Page) (p : Int) (i : Nat) :
    pg.getRecordP ⟨p, (i : Int)⟩ = pg.slots.getD i none := by
  show (if ((i : Int) < 0) then none else pg.slots.getD (i : Int).toNat none) = _
  rw [if_neg (by omega), Int.toNat_natCast]

/-- `Page.nextRecordSN` only reads the slot number of its argument. -/
theorem nextRecordSN_eq (pg : Page) (p lo : Int) :
    pg.nextRecordSN ⟨p, lo⟩ =
      match firstLiveIdx pg.slots lo with
      | some j => (OK, some ⟨pg.pageNo, (j : Int)⟩)
      | none => (ENDOFPAGE, none) := rfl

/-- The record loop with an exhausted entry status finds nothing. -/
theorem recLoop_notOK (sp : ScanParams) (pg : Page) (st : Status)
    (nr : Option Rid) (fuel : Nat) (h : st ≠ OK) :
    recLoop sp pg st nr fuel = none := by
  cases fuel with
  | zero => rfl
  | succ n =>
    rw [recLoop_succ, if_neg h]

/-- The record loop started from the first live slot after `lo` computes
`specFind` past `lo`. -/
theorem recLoop_spec (sp : ScanParams) (pg : Page) : ∀ (fuel : Nat) (lo : Int) (i : Nat),
    firstLiveIdx pg.slots lo = some i →
    (ridsAfter pg lo).length < fuel →
    recLoop sp pg OK (some ⟨pg.pageNo, (i : Int)⟩) fuel = specFind sp pg lo := by
  intro fuel
  induction fuel with
  | zero => intro lo i _ hlen; omega
  | succ n ih =>
    intro lo i hfl hlen
    rcases ridsAfter_cons pg lo i hfl with ⟨hdec, hlo, hlive⟩
    rw [recLoop_succ, if_pos rfl]
    have hrid : (some (⟨pg.pageNo, (i : Int)⟩ : Rid)).getD NULLRID =
        (⟨pg.pageNo, (i : Int)⟩ : Rid) := rfl
    rw [hrid]
    cases hslot : pg.slots.getD i none with
    | none => rw [hslot] at hlive; exact absurd hlive (by simp)
    | some r =>
      have hgd : ((pg.getRecordP ⟨pg.pageNo, (i : Int)⟩).getD ⟨[], 0⟩) = r := by
        rw [getRecordP_nat, hslot]
        rfl
      rw [hgd]
      unfold specFind
      rw [hdec, List.find?_cons]
      have hgd2 : ((pg.getRecordP ⟨pg.pageNo, (i : Int)⟩).getD ⟨[], 0⟩) = r := hgd
      by_cases hm : matchRec sp r = true
      · rw [if_pos hm]
        rw [show (matchRec sp ((pg.getRecordP ⟨pg.pageNo, (i : Int)⟩).getD ⟨[], 0⟩)) =
          true from by rw [hgd2]; exact hm]
      · have hm' : matchRec sp r = false := by
          cases hmr : matchRec sp r with
          | true => exact absurd hmr hm
          | false => rfl
        rw [if_neg (by rw [hm']; simp)]
        rw [show (matchRec sp ((pg.getRecordP ⟨pg.pageNo, (i : Int)⟩).getD ⟨[], 0⟩)) =
          false from by rw [hgd2]; exact hm']
        rw [nextRecordSN_eq]
        cases hfl2 : firstLiveIdx pg.slots ((i : Int)) with
        | some j =>
          have hlen2 : (ridsAfter pg ((i : Int))).length < n := by
            have hx : (ridsAfter pg lo).length = (ridsAfter pg ((i : Int))).length + 1 := by
              rw [hdec]; rfl
            omega
          have := ih ((i : Int)) j hfl2 hlen2
          unfold specFind at this
          exact this
        | none =>
          dsimp only
          rw [recLoop_notOK sp pg ENDOFPAGE none n (by decide)]
          rw [ridsAfter_eq_nil pg ((i : Int)) hfl2]
          rfl

/-- `specFind` on a page with no live slot after `lo` finds nothing. -/
theorem specFind_nil (sp : ScanParams) (pg : Page) (lo : Int)
    (h : firstLiveIdx pg.slots lo = none) : specFind sp pg lo = none := by
  unfold specFind
  rw [ridsAfter_eq_nil pg lo h]
  rfl

/-! ## Page-loop lemmas -/

theorem pagesWf_facts (f : HFile) (hw : pagesWfB f = true) (k : Int) (pg : Page)
    (h : plookup f.pages k = some pg) :
    pg.pageNo = k ∧ 1 ≤ k ∧ k < f.nextAlloc := by
  have hmem := (plookup_mem_keys f.pages k pg h).1
  unfold pagesWfB at hw
  rw [decide_eq_true_iff] at hw
  have hall := List.all_eq_true.mp hw.2 (k, pg) hmem
  simp only [Bool.and_eq_true, beq_iff_eq, decide_eq_true_iff] at hall
  exact ⟨hall.1.1, hall.1.2, hall.2⟩

theorem plookup_neg_none (f : HFile) (hw : pagesWfB f = true) :
    plookup f.pages (-1) = none := by
  cases h : plookup f.pages (-1) with
  | none => rfl
  | some pg =>
    have := (pagesWf_facts f hw (-1) pg h).2.1
    omega

theorem ridsAfter_length_le (pg : Page) (lo : Int) :
    (ridsAfter pg lo).length ≤ pg.slots.length := by
  unfold ridsAfter liveIdx
  rw [List.length_map]
  calc (((List.range pg.slots.length).filter _).filter _).length
      ≤ ((List.range pg.slots.length).filter _).length := List.length_filter_le _ _
    _ ≤ (List.range pg.slots.length).length := List.length_filter_le _ _
    _ = pg.slots.length := List.length_range _

/-- The record loop agrees with `specFind` whenever it is entered the way
the source enters it (status and candidate produced by
`firstRecord`/`nextRecord` at position `lo`). -/
theorem recLoop_eq_specFind (s : HFS) (pgHead : Page) (rs : Status)
    (nr : Option Rid) (lo : Int)
    (hentry : match firstLiveIdx pgHead.slots lo with
      | some i => rs = OK ∧ nr = some ⟨pgHead.pageNo, (i : Int)⟩
      | none => rs ≠ OK) :
    recLoop s.sp pgHead rs nr (recFuel pgHead) = specFind s.sp pgHead lo := by
  cases hfl : firstLiveIdx pgHead.slots lo with
  | some i =>
    rw [hfl] at hentry
    rcases hentry with ⟨rfl, rfl⟩
    exact recLoop_spec s.sp pgHead (recFuel pgHead) lo i hfl
      (by have := ridsAfter_length_le pgHead lo; unfold recFuel; omega)
  | none =>
    rw [hfl] at hentry
    rw [recLoop_notOK s.sp pgHead rs nr (recFuel pgHead) hentry,
      specFind_nil s.sp pgHead lo hfl]

/-- `scanOuter` at a sentinel page number returns `FILEEOF` at once. -/
theorem scanOuter_sentinel (fuel : Nat) (s : HFS) (rs : Status) (nr : Option Rid)
    (tr : List BufOp) :
    scanOuter fuel s rs nr (-1) tr = (FILEEOF, none, { s with curRec := NULLRID }, tr) := by
  cases fuel with
  | zero => rfl
  | succ n =>
    unfold scanOuter
    rw [if_pos rfl]

/-- `scanOuter` when the record loop finds a match on the cursor page. -/
theorem scanOuter_found (fuel : Nat) (s : HFS) (rs : Status) (nr : Option Rid)
    (npn : Int) (tr : List BufOp) (pgHead : Page) (rid : Rid)
    (hnpn : npn ≠ -1)
    (hptr : s.curPtr = some s.curPageNo)
    (hpg : plookup s.file.pages s.curPageNo = some pgHead)
    (hrl : recLoop s.sp pgHead rs nr (recFuel pgHead) = some rid) :
    scanOuter (fuel + 1) s rs nr npn tr = (OK, some rid, { s with curRec := rid }, tr) := by
  unfold scanOuter
  rw [if_neg hnpn, hptr]
  show (match plookup s.file.pages s.curPageNo with
    | none => _
    | some pg => _) = _
  rw [hpg]
  dsimp only
  rw [hrl]

/-- `scanOuter` when the cursor page is exhausted and its link leads to a
real page: unpin, read, position at the new page's first record, loop. -/
theorem scanOuter_advance_real (fuel : Nat) (s : HFS) (rs : Status) (nr : Option Rid)
    (npn : Int) (tr : List BufOp) (pgHead pg2 : Page)
    (hnpn : npn ≠ -1)
    (hptr : s.curPtr = some s.curPageNo)
    (hpg : plookup s.file.pages s.curPageNo = some pgHead)
    (hrl : recLoop s.sp pgHead rs nr (recFuel pgHead) = none)
    (hnx : plookup s.file.pages pgHead.nextPage = some pg2) :
    scanOuter (fuel + 1) s rs nr npn tr =
      scanOuter fuel
        { s with curDirtyFlag := false, curPageNo := pgHead.nextPage,
                 curPtr := some pgHead.nextPage }
        pg2.firstRecordSN.1 pg2.firstRecordSN.2 pgHead.nextPage
        (tr ++ [BufOp.unpin s.curPageNo s.curDirtyFlag] ++ [BufOp.read pgHead.nextPage]) := by
  unfold scanOuter
  rw [if_neg hnpn, hptr]
  show (match plookup s.file.pages s.curPageNo with
    | none => _
    | some pg => _) = _
  rw [hpg]
  dsimp only
  rw [hrl]
  dsimp only
  rw [show ({ s with curDirtyFlag := false, curPageNo := pgHead.nextPage } : HFS).file =
    s.file from rfl, hnx]
  dsimp only
  rw [scanOuter.eq_def]

/-- `scanOuter` when the cursor page is exhausted and its link is the end
sentinel: the source still unpins the cursor and reads page `-1`; the read
fails, the stale first-record probe is discarded, and the loop exits with
`FILEEOF` and `curRec = NULLRID`. -/
theorem scanOuter_advance_sentinel (fuel : Nat) (s : HFS) (rs : Status)
    (nr : Option Rid) (npn : Int) (tr : List BufOp) (pgHead : Page)
    (hnpn : npn ≠ -1)
    (hptr : s.curPtr = some s.curPageNo)
    (hpg : plookup s.file.pages s.curPageNo = some pgHead)
    (hrl : recLoop s.sp pgHead rs nr (recFuel pgHead) = none)
    (hnx : pgHead.nextPage = -1)
    (hm1 : plookup s.file.pages (-1) = none) :
    scanOuter (fuel + 1) s rs nr npn tr =
      (FILEEOF, none,
        { s with curRec := NULLRID, curDirtyFlag := false, curPageNo := -1 },
        tr ++ [BufOp.unpin s.curPageNo s.curDirtyFlag] ++ [BufOp.read (-1)]) := by
  unfold scanOuter
  rw [if_neg hnpn, hptr]
  show (match plookup s.file.pages s.curPageNo with
    | none => _
    | some pg => _) = _
  rw [hpg]
  dsimp only
  rw [hrl]
  dsimp only
  rw [hnx]
  rw [show ({ s with curDirtyFlag := false, curPageNo := (-1 : Int) } : HFS).file =
    s.file from rfl, hm1]
  dsimp only
  rw [scanOuter_sentinel]

theorem specFindChain_cons (sp : ScanParams) (pages : List (Int × Page))
    (p : Int) (rest : List Int) (lo : Int) :
    specFindChain sp pages (p :: rest) lo =
      match (plookup pages p).bind (fun pg => specFind sp pg lo) with
      | some rid => some (rid, p :: rest)
      | none => specFindChain sp pages rest (-1) := rfl

/-- What a successful `specFind` guarantees: the rid lives on the page, its
record matches, and it lies past `lo`. -/
theorem specFind_props (sp : ScanParams) (pg : Page) (lo : Int) (rid : Rid)
    (h : specFind sp pg lo = some rid) :
    rid.pageNo = pg.pageNo ∧ lo < rid.slotNo ∧
      ∃ r, pg.getRecordP rid = some r ∧ matchRec sp r = true := by
  unfold specFind at h
  have hmem := List.mem_of_find?_eq_some h
  have hpred := List.find?_some h
  unfold ridsAfter at hmem
  rcases List.mem_map.mp hmem with ⟨i, hif, hrid⟩
  have hlive : (pg.slots.getD i none).isSome = true := by
    have := List.mem_filter.mp (List.mem_of_mem_filter hif)
    simpa [liveIdx] using this.2
  have hlo : lo < (i : Int) := by
    simpa using List.of_mem_filter hif
  subst hrid
  refine ⟨rfl, by simpa using hlo, ?_⟩
  cases hslot : pg.slots.getD i none with
  | none => rw [hslot] at hlive; exact absurd hlive (by simp)
  | some r =>
    refine ⟨r, by rw [getRecordP_nat, hslot], ?_⟩
    rw [getRecordP_nat, hslot] at hpred
    simpa using hpred

/-- The full page loop computes the declarative `specFindChain`, lands the
cursor on the matching page (or past the tail with a failed read of page
`-1`), and touches nothing else in the state. -/
theorem scanOuter_spec : ∀ (rest : List Int) (fuel : Nat) (s : HFS) (rs : Status)
    (nr : Option Rid) (npn : Int) (tr : List BufOp) (pgHead : Page) (lo : Int),
    pagesWfB s.file = true →
    isChainB s.file.pages s.curPageNo (s.curPageNo :: rest) = true →
    s.curPtr = some s.curPageNo →
    plookup s.file.pages s.curPageNo = some pgHead →
    npn ≠ -1 →
    rest.length + 1 ≤ fuel →
    (match firstLiveIdx pgHead.slots lo with
      | some i => rs = OK ∧ nr = some ⟨pgHead.pageNo, (i : Int)⟩
      | none => rs ≠ OK) →
    (match specFindChain s.sp s.file.pages (s.curPageNo :: rest) lo with
      | some (rid, ch2) =>
        ∃ d trx pre, scanOuter fuel s rs nr npn tr =
            (OK, some rid,
              { s with curRec := rid, curPageNo := rid.pageNo,
                       curPtr := some rid.pageNo, curDirtyFlag := d }, trx) ∧
          pre ++ ch2 = s.curPageNo :: rest ∧ ch2.head? = some rid.pageNo
      | none =>
        ∃ q d trx, scanOuter fuel s rs nr npn tr =
            (FILEEOF, none,
              { s with curRec := NULLRID, curPageNo := -1,
                       curPtr := some q, curDirtyFlag := false },
              tr ++ trx ++ [BufOp.unpin q d, BufOp.read (-1)]) ∧
          q ∈ s.curPageNo :: rest) := by
  intro rest
  induction rest with
  | nil =>
    intro fuel s rs nr npn tr pgHead lo hw hch hptr hpg hnpn hfuel hentry
    have hrl := recLoop_eq_specFind s pgHead rs nr lo hentry
    rcases (isChainB_cons_iff _ _ _ _).mp hch with ⟨_, pgx, hpgx, hcx⟩
    rw [hpg] at hpgx
    cases hpgx
    have hnx : pgHead.nextPage = -1 := by simpa [isChainB] using hcx
    obtain ⟨n, rfl⟩ : ∃ n, fuel = n + 1 := ⟨fuel - 1, by omega⟩
    rw [specFindChain_cons, hpg]
    dsimp only [Option.bind]
    cases hsf : specFind s.sp pgHead lo with
    | some rid =>
      dsimp only
      rcases specFind_props s.sp pgHead lo rid hsf with ⟨hpn, _, _⟩
      have hpn2 : rid.pageNo = s.curPageNo := by
        rw [hpn]
        exact (pagesWf_facts s.file hw s.curPageNo pgHead hpg).1
      refine ⟨s.curDirtyFlag, tr, [], ?_, by simp, by rw [List.head?_cons, hpn2]⟩
      rw [scanOuter_found n s rs nr npn tr pgHead rid hnpn hptr hpg (by rw [hrl, hsf])]
      rw [hpn2, ← hptr]
    | none =>
      dsimp only
      refine ⟨s.curPageNo, s.curDirtyFlag, [], ?_, List.mem_cons_self _ _⟩
      rw [scanOuter_advance_sentinel n s rs nr npn tr pgHead hnpn hptr hpg
        (by rw [hrl, hsf]) hnx (plookup_neg_none s.file hw), hptr]
      simp
  | cons q2 rest2 ih =>
    intro fuel s rs nr npn tr pgHead lo hw hch hptr hpg hnpn hfuel hentry
    have hrl := recLoop_eq_specFind s pgHead rs nr lo hentry
    rcases (isChainB_cons_iff _ _ _ _).mp hch with ⟨_, pgx, hpgx, hcx⟩
    rw [hpg] at hpgx
    cases hpgx
    rcases (isChainB_cons_iff _ _ _ _).mp hcx with ⟨hnx, pg2, hpg2x, hc2⟩
    have hpg2 : plookup s.file.pages q2 = some pg2 := by rw [← hnx]; exact hpg2x
    obtain ⟨n, rfl⟩ : ∃ n, fuel = n + 1 := ⟨fuel - 1, by omega⟩
    rw [specFindChain_cons, hpg]
    dsimp only [Option.bind]
    cases hsf : specFind s.sp pgHead lo with
    | some rid =>
      dsimp only
      rcases specFind_props s.sp pgHead lo rid hsf with ⟨hpn, _, _⟩
      have hpn2 : rid.pageNo = s.curPageNo := by
        rw [hpn]
        exact (pagesWf_facts s.file hw s.curPageNo pgHead hpg).1
      refine ⟨s.curDirtyFlag, tr, [], ?_, by simp, by rw [List.head?_cons, hpn2]⟩
      rw [scanOuter_found n s rs nr npn tr pgHead rid hnpn hptr hpg (by rw [hrl, hsf])]
      rw [hpn2, ← hptr]
    | none =>
      dsimp only
      -- advance to the next chain page q2 and use the induction hypothesis
      have hq2pos : (1 : Int) ≤ q2 := (pagesWf_facts s.file hw q2 pg2 hpg2).2.1
      have hq2ne : q2 ≠ -1 := by omega
      set s3 : HFS := { s with curDirtyFlag := false, curPageNo := q2,
                               curPtr := some q2 } with hs3
      have hadv := scanOuter_advance_real n s rs nr npn tr pgHead pg2 hnpn hptr hpg
        (by rw [hrl, hsf]) (by rw [hnx]; exact hpg2)
      have hentry2 : (match firstLiveIdx pg2.slots (-1) with
          | some i => pg2.firstRecordSN.1 = OK ∧
              pg2.firstRecordSN.2 = some ⟨pg2.pageNo, (i : Int)⟩
          | none => pg2.firstRecordSN.1 ≠ OK) := by
        unfold Page.firstRecordSN
        cases hfl2 : firstLiveIdx pg2.slots (-1) with
        | some i =>
          dsimp only
          exact ⟨rfl, rfl⟩
        | none =>
          dsimp only
          decide
      have hih := ih n s3 pg2.firstRecordSN.1 pg2.firstRecordSN.2 q2
        (tr ++ [BufOp.unpin s.curPageNo s.curDirtyFlag] ++ [BufOp.read q2])
        pg2 (-1) hw
        (by
          show isChainB s.file.pages q2 (q2 :: rest2) = true
          exact (isChainB_cons_iff _ _ _ _).mpr ⟨rfl, pg2, hpg2, hc2⟩)
        rfl hpg2 hq2ne (by simpa using hfuel) hentry2
      rw [show specFindChain s.sp s3.file.pages (s3.curPageNo :: rest2) (-1) =
        specFindChain s.sp s.file.pages (q2 :: rest2) (-1) from rfl] at hih
      rw [show pgHead.nextPage = q2 from hnx] at hadv
      cases hspc : specFindChain s.sp s.file.pages (q2 :: rest2) (-1) with
      | some pr =>
        rcases pr with ⟨rid, ch2⟩
        rw [hspc] at hih
        rcases hih with ⟨d, trx, pre, heq, hpre, hhd⟩
        refine ⟨d, trx, s.curPageNo :: pre, ?_, ?_, hhd⟩
        · rw [hadv, heq]
        · rw [List.cons_append, hpre]
      | none =>
        rw [hspc] at hih
        rcases hih with ⟨q, d, trx, heq, hqmem⟩
        refine ⟨q, d, [BufOp.unpin s.curPageNo s.curDirtyFlag, BufOp.read q2] ++ trx,
          ?_, List.mem_cons_of_mem _ hqmem⟩
        rw [hadv, heq]
        simp

/-- `Page.nextRecordSN` reads only the slot number of its argument. -/
theorem nextRecordSN_eta (pg : Page) (cur : Rid) :
    pg.nextRecordSN cur =
      match firstLiveIdx pg.slots cur.slotNo with
      | some j => (OK, some ⟨pg.pageNo, (j : Int)⟩)
      | none => (ENDOFPAGE, none) := rfl

/-- With a live cursor, `scanNext` is the page loop entered from
`nextRecord(curRec)`. -/
theorem scanNext_eq_outer (s : HFS) (pgHead : Page)
    (hptr : s.curPtr = some s.curPageNo)
    (hpg : plookup s.file.pages s.curPageNo = some pgHead) :
    scanNext s = scanOuter (pageFuel s.file) s (pgHead.nextRecordSN s.curRec).1
      (pgHead.nextRecordSN s.curRec).2 0 [] := by
  unfold scanNext
  rw [hptr]
  show (match plookup s.file.pages s.curPageNo with
    | some pg => _
    | none => _) = _
  rw [hpg]

/-- `scanNext` on a well-formed scan state computes `specFindChain` from the
current record's slot, moves the cursor to the hit page (or past the tail,
with the failed read of page `-1`), and leaves every other field alone. -/
theorem scanNext_spec (s : HFS) (rest : List Int) (pgHead : Page)
    (hw : pagesWfB s.file = true)
    (hch : isChainB s.file.pages s.curPageNo (s.curPageNo :: rest) = true)
    (hnd : (s.curPageNo :: rest).Nodup)
    (hptr : s.curPtr = some s.curPageNo)
    (hpg : plookup s.file.pages s.curPageNo = some pgHead) :
    (match specFindChain s.sp s.file.pages (s.curPageNo :: rest) s.curRec.slotNo with
      | some (rid, ch2) =>
        ∃ d trx pre, scanNext s =
            (OK, some rid,
              { s with curRec := rid, curPageNo := rid.pageNo,
                       curPtr := some rid.pageNo, curDirtyFlag := d }, trx) ∧
          pre ++ ch2 = s.curPageNo :: rest ∧ ch2.head? = some rid.pageNo
      | none =>
        ∃ q d trx, scanNext s =
            (FILEEOF, none,
              { s with curRec := NULLRID, curPageNo := -1,
                       curPtr := some q, curDirtyFlag := false },
              ([] : List BufOp) ++ trx ++ [BufOp.unpin q d, BufOp.read (-1)]) ∧
          q ∈ s.curPageNo :: rest) := by
  have hentry : (match firstLiveIdx pgHead.slots s.curRec.slotNo with
      | some i => (pgHead.nextRecordSN s.curRec).1 = OK ∧
          (pgHead.nextRecordSN s.curRec).2 = some ⟨pgHead.pageNo, (i : Int)⟩
      | none => (pgHead.nextRecordSN s.curRec).1 ≠ OK) := by
    rw [nextRecordSN_eta]
    cases hfl : firstLiveIdx pgHead.slots s.curRec.slotNo with
    | some i =>
      dsimp only
      exact ⟨rfl, rfl⟩
    | none =>
      dsimp only
      decide
  have hfuel : rest.length + 1 ≤ pageFuel s.file := by
    have := chain_length_le s.file.pages (s.curPageNo :: rest) s.curPageNo hch hnd
    unfold pageFuel
    simp only [List.length_cons] at this
    omega
  have := scanOuter_spec rest (pageFuel s.file) s (pgHead.nextRecordSN s.curRec).1
    (pgHead.nextRecordSN s.curRec).2 0 [] pgHead s.curRec.slotNo hw hch hptr hpg
    (by omega) hfuel hentry
  rw [← scanNext_eq_outer s pgHead hptr hpg] at this
  exact this

/-! ## FILEEOF behaviour (C5) -/

/-- C5 counterexample: scanning an empty freshly created file, the source
reaches the sentinel link, yet its trace shows it unpinned the cursor page
and issued `readPage` on page `-1` before the loop guard stopped it. -/
theorem c5_counterexample_reads_sentinel_page :
    (scanNext (openScan newHeapFile)).1 = FILEEOF ∧
    (scanNext (openScan newHeapFile)).2.2.2 =
      [BufOp.unpin 1 false, BufOp.read (-1)] ∧
    BufOp.read (-1) ∈ (scanNext (openScan newHeapFile)).2.2.2 := by
  refine ⟨rfl, rfl, ?_⟩
  rw [show (scanNext (openScan newHeapFile)).2.2.2 =
    [BufOp.unpin 1 false, BufOp.read (-1)] from rfl]
  exact List.mem_cons_of_mem _ (List.mem_cons_self _ _)

/-- C5 amended: whenever `scanNext` on a well-formed scan state returns
`FILEEOF`, it has set `curRec = NULLRID`, and its buffer trace *ends with*
an unpin of the cursor page followed by an attempted read of page
`SENTINEL_END = -1` (the guard sits in the loop condition only after the
read): the unpin and the read attempt are not skipped when the link is the
sentinel. -/
theorem c5_amended_eof_behavior (s : HFS) (hg : GoodS s)
    (heof : (scanNext s).1 = FILEEOF) :
    (scanNext s).2.2.1.curRec = NULLRID ∧
    ∃ q d trx, (scanNext s).2.2.2 = trx ++ [BufOp.unpin q d, BufOp.read (-1)] ∧
      (plookup s.file.pages q).isSome = true := by
  rcases hg with ⟨hw, hptr, rest, hch, hnd⟩
  rcases (isChainB_cons_iff _ _ _ _).mp hch with ⟨_, pgHead, hpg, _⟩
  have hspec := scanNext_spec s rest pgHead hw hch hnd hptr hpg
  cases c : specFindChain s.sp s.file.pages (s.curPageNo :: rest) s.curRec.slotNo with
  | some pr =>
    obtain ⟨rid, ch2⟩ := pr
    rw [c] at hspec
    dsimp only at hspec
    rcases hspec with ⟨d, trx, pre, heq, _, _⟩
    rw [heq] at heof
    exact absurd heof (by simp)
  | none =>
    rw [c] at hspec
    dsimp only at hspec
    rcases hspec with ⟨q, d, trx, heq, hqmem⟩
    rw [heq]
    refine ⟨rfl, q, d, [] ++ trx, by simp, ?_⟩
    exact isChainB_mem_lookup s.file.pages _ _ hch q hqmem

/-- Witness for the amended C5 statement on an empty freshly created file. -/
theorem c5_amended_witness :
    (scanNext (openScan newHeapFile)).2.2.1.curRec = NULLRID ∧
    ∃ q d trx, (scanNext (openScan newHeapFile)).2.2.2 =
        trx ++ [BufOp.unpin q d, BufOp.read (-1)] ∧
      (plookup (openScan newHeapFile).file.pages q).isSome = true :=
  c5_amended_eof_behavior (openScan newHeapFile)
    ⟨by decide, rfl, [], by decide, by decide⟩ rfl

/-! ## Soundness and replay lemmas for the scan -/

/-- What a successful `specFindChain` guarantees. -/
theorem specFindChain_props (sp : ScanParams) (pages : List (Int × Page)) :
    ∀ (ch : List Int) (lo : Int) (rid : Rid) (ch2 : List Int),
      specFindChain sp pages ch lo = some (rid, ch2) →
      ∃ q pg lo2, ch2.head? = some q ∧ plookup pages q = some pg ∧
        specFind sp pg lo2 = some rid := by
  intro ch
  induction ch with
  | nil => intro lo rid ch2 h; exact absurd h (by simp [specFindChain])
  | cons p rest ih =>
    intro lo rid ch2 h
    rw [specFindChain_cons] at h
    cases hl : plookup pages p with
    | none =>
      rw [hl] at h
      dsimp only [Option.bind] at h
      exact ih (-1) rid ch2 h
    | some pg =>
      rw [hl] at h
      dsimp only [Option.bind] at h
      cases hsf : specFind sp pg lo with
      | some rid0 =>
        rw [hsf] at h
        dsimp only at h
        rcases Prod.mk.injEq .. ▸ (Option.some.injEq .. ▸ h) with ⟨h1, h2⟩
        subst h1
        subst h2
        exact ⟨p, pg, lo, rfl, hl, hsf⟩
      | none =>
        rw [hsf] at h
        dsimp only at h
        exact ih (-1) rid ch2 h

/-- `scanNext` soundness: an `OK` result identifies a live record that
satisfies the predicate. -/
theorem scanNext_sound (s : HFS) (hg : GoodS s) (rid : Rid)
    (hok : (scanNext s).1 = OK) (hrid : (scanNext s).2.1 = some rid) :
    ∃ r, recAt s.file rid = some r ∧ matchRec s.sp r = true := by
  rcases hg with ⟨hw, hptr, rest, hch, hnd⟩
  rcases (isChainB_cons_iff _ _ _ _).mp hch with ⟨_, pgHead, hpg, _⟩
  have hspec := scanNext_spec s rest pgHead hw hch hnd hptr hpg
  cases c : specFindChain s.sp s.file.pages (s.curPageNo :: rest) s.curRec.slotNo with
  | none =>
    rw [c] at hspec
    dsimp only at hspec
    rcases hspec with ⟨q, d, trx, heq, _⟩
    rw [heq] at hok
    exact absurd hok (by simp)
  | some pr =>
    obtain ⟨rid0, ch2⟩ := pr
    rw [c] at hspec
    dsimp only at hspec
    rcases hspec with ⟨d, trx, pre, heq, hpre, hhd⟩
    rw [heq] at hrid
    have hr0 : rid0 = rid := by simpa using hrid
    subst hr0
    rcases specFindChain_props s.sp s.file.pages _ _ _ _ c with ⟨q, pg, lo2, hq, hlk, hsf⟩
    rcases specFind_props s.sp pg lo2 rid0 hsf with ⟨hpn, _, r, hget, hmr⟩
    refine ⟨r, ?_, hmr⟩
    unfold recAt
    have hqpn : rid0.pageNo = q := by
      rw [hpn]
      exact (pagesWf_facts s.file hw q pg hlk).1
    rw [hqpn, hlk]
    exact hget

/-- An `OK` `scanNext` preserves the scan invariant and every non-cursor
field of the state, and puts `curRec` at the returned rid. -/
theorem scanNext_preserves (s : HFS) (hg : GoodS s)
    (hok : (scanNext s).1 = OK) :
    GoodS (scanNext s).2.2.1 ∧
    (scanNext s).2.2.1.file = s.file ∧
    (scanNext s).2.2.1.sp = s.sp ∧
    (scanNext s).2.2.1.markedPageNo = s.markedPageNo ∧
    (scanNext s).2.2.1.markedRec = s.markedRec := by
  rcases hg with ⟨hw, hptr, rest, hch, hnd⟩
  rcases (isChainB_cons_iff _ _ _ _).mp hch with ⟨_, pgHead, hpg, _⟩
  have hspec := scanNext_spec s rest pgHead hw hch hnd hptr hpg
  cases c : specFindChain s.sp s.file.pages (s.curPageNo :: rest) s.curRec.slotNo with
  | none =>
    rw [c] at hspec
    dsimp only at hspec
    rcases hspec with ⟨q, d, trx, heq, _⟩
    rw [heq] at hok
    exact absurd hok (by simp)
  | some pr =>
    obtain ⟨rid, ch2⟩ := pr
    rw [c] at hspec
    dsimp only at hspec
    rcases hspec with ⟨d, trx, pre, heq, hpre, hhd⟩
    rw [heq]
    cases ch2 with
    | nil => exact absurd hhd (by simp)
    | cons q rest2 =>
      have hq : q = rid.pageNo := by simpa using hhd
      subst hq
      refine ⟨⟨hw, rfl, rest2, ?_, ?_⟩, rfl, rfl, rfl, rfl⟩
      · exact isChainB_suffix s.file.pages pre rid.pageNo rest2 s.curPageNo
          (by rw [hpre]; exact hch)
      · have hsub : (rid.pageNo :: rest2).Sublist (pre ++ rid.pageNo :: rest2) :=
          List.sublist_append_right pre (rid.pageNo :: rest2)
        exact List.Nodup.sublist hsub (by rw [hpre]; exact hnd)

/-! ## Completeness of the unfiltered scan -/

theorem matchRec_no_filter (sp : ScanParams) (r : Rec) (h : sp.filter = none) :
    matchRec sp r = true := by
  unfold matchRec
  rw [h]

theorem find?_of_all_true {α : Type} (l : List α) (p : α → Bool)
    (h : ∀ x, p x = true) : l.find? p = l.head? := by
  cases l with
  | nil => rfl
  | cons a t =>
    rw [List.find?_cons, h a]
    rfl

/-- Without a filter, `specFind` is the first live rid. -/
theorem specFind_unfiltered (sp : ScanParams) (pg : Page) (lo : Int)
    (h : sp.filter = none) : specFind sp pg lo = (ridsAfter pg lo).head? := by
  unfold specFind
  exact find?_of_all_true _ _ fun rid => matchRec_no_filter sp _ h

/-- Head decomposition of `ridsAfter` phrased on the rid it returns. -/
theorem ridsAfter_head (pg : Page) (lo : Int) (rid : Rid)
    (h : (ridsAfter pg lo).head? = some rid) :
    ridsAfter pg lo = rid :: ridsAfter pg rid.slotNo := by
  cases hfl : firstLiveIdx pg.slots lo with
  | none =>
    rw [ridsAfter_eq_nil pg lo hfl] at h
    exact absurd h (by simp)
  | some i =>
    rcases ridsAfter_cons pg lo i hfl with ⟨hdec, _, _⟩
    rw [hdec] at h
    have : (⟨pg.pageNo, (i : Int)⟩ : Rid) = rid := by simpa using h
    subst this
    exact hdec

/-- Unfiltered chain search, as a head/tail decomposition of the list of
remaining rids. -/
theorem specFindChain_unfiltered_decomp (sp : ScanParams)
    (pages : List (Int × Page)) (hf : sp.filter = none) :
    ∀ (rest : List Int) (p : Int) (pgH : Page) (lo : Int),
      isChainB pages p (p :: rest) = true →
      plookup pages p = some pgH →
      (ridsAfter pgH lo ++ allRids pages rest =
        match specFindChain sp pages (p :: rest) lo with
        | none => []
        | some (rid, ch2) =>
          rid ::
            (match ch2 with
              | [] => []
              | q :: rest2 =>
                (match plookup pages q with
                  | some pgq => ridsAfter pgq rid.slotNo
                  | none => []) ++ allRids pages rest2)) := by
  intro rest
  induction rest with
  | nil =>
    intro p pgH lo hch hpg
    rw [specFindChain_cons, hpg]
    dsimp only [Option.bind]
    rw [specFind_unfiltered sp pgH lo hf]
    cases hh : (ridsAfter pgH lo).head? with
    | none =>
      dsimp only
      rw [List.head?_eq_none_iff.mp hh]
      rfl
    | some rid =>
      dsimp only
      rw [ridsAfter_head pgH lo rid hh, hpg]
      rfl
  | cons q2 rest2 ih =>
    intro p pgH lo hch hpg
    rcases (isChainB_cons_iff _ _ _ _).mp hch with ⟨_, pgx, hpgx, hcx⟩
    rw [hpg] at hpgx
    cases hpgx
    rcases (isChainB_cons_iff _ _ _ _).mp hcx with ⟨hnx, pg2, hpg2x, hc2⟩
    have hpg2 : plookup pages q2 = some pg2 := by rw [← hnx]; exact hpg2x
    rw [specFindChain_cons, hpg]
    dsimp only [Option.bind]
    rw [specFind_unfiltered sp pgH lo hf]
    cases hh : (ridsAfter pgH lo).head? with
    | some rid =>
      dsimp only
      rw [ridsAfter_head pgH lo rid hh, hpg]
      rfl
    | none =>
      dsimp only
      rw [List.head?_eq_none_iff.mp hh]
      have hch2 : isChainB pages q2 (q2 :: rest2) = true :=
        (isChainB_cons_iff _ _ _ _).mpr ⟨rfl, pg2, hpg2, hc2⟩
      have := ih q2 pg2 (-1) hch2 hpg2
      rw [List.nil_append]
      show allRids pages (q2 :: rest2) = _
      have hall : allRids pages (q2 :: rest2) =
          ridsAfter pg2 (-1) ++ allRids pages rest2 := by
        show ((plookup pages q2).map pageRids).getD [] ++ allRids pages rest2 = _
        rw [hpg2]
        rfl
      rw [hall, this]

/-- One unfolding step of `scanAll`. -/
theorem scanAll_succ (n : Nat) (s : HFS) :
    scanAll (n + 1) s =
      match scanNext s with
      | (OK, some rid, s2, _) =>
        (rid :: (scanAll n s2).1, (scanAll n s2).2.1, (scanAll n s2).2.2)
      | (st, _, s2, _) => ([], st, s2) := rfl

/-- The unfiltered scan, iterated, returns exactly the remaining live rids
in chain-then-slot order and then `FILEEOF`. -/
theorem scanAll_complete : ∀ (R : List Rid) (s : HFS) (rest : List Int) (pgH : Page),
    s.sp.filter = none →
    pagesWfB s.file = true →
    isChainB s.file.pages s.curPageNo (s.curPageNo :: rest) = true →
    (s.curPageNo :: rest).Nodup →
    s.curPtr = some s.curPageNo →
    plookup s.file.pages s.curPageNo = some pgH →
    R = ridsAfter pgH s.curRec.slotNo ++ allRids s.file.pages rest →
    (scanAll (R.length + 1) s).1 = R ∧ (scanAll (R.length + 1) s).2.1 = FILEEOF := by
  intro R
  induction R with
  | nil =>
    intro s rest pgH hf hw hch hnd hptr hpg hR
    have hdec := specFindChain_unfiltered_decomp s.sp s.file.pages hf rest
      s.curPageNo pgH s.curRec.slotNo hch hpg
    have hspec := scanNext_spec s rest pgH hw hch hnd hptr hpg
    cases c : specFindChain s.sp s.file.pages (s.curPageNo :: rest) s.curRec.slotNo with
    | some pr =>
      obtain ⟨rid, ch2⟩ := pr
      rw [c] at hdec
      dsimp only at hdec
      rw [← hR] at hdec
      exact absurd hdec.symm (by simp)
    | none =>
      rw [c] at hspec
      dsimp only at hspec
      rcases hspec with ⟨q, d, trx, heq, _⟩
      rw [scanAll_succ, heq]
      exact ⟨rfl, rfl⟩
  | cons r R2 ih =>
    intro s rest pgH hf hw hch hnd hptr hpg hR
    have hdec := specFindChain_unfiltered_decomp s.sp s.file.pages hf rest
      s.curPageNo pgH s.curRec.slotNo hch hpg
    have hspec := scanNext_spec s rest pgH hw hch hnd hptr hpg
    cases c : specFindChain s.sp s.file.pages (s.curPageNo :: rest) s.curRec.slotNo with
    | none =>
      rw [c] at hdec
      dsimp only at hdec
      rw [← hR] at hdec
      exact absurd hdec (by simp)
    | some pr =>
      obtain ⟨rid, ch2⟩ := pr
      rw [c] at hdec hspec
      dsimp only at hdec hspec
      rcases hspec with ⟨d, trx, pre, heq, hpre, hhd⟩
      cases ch2 with
      | nil => exact absurd hhd (by simp)
      | cons q rest2 =>
        have hq : q = rid.pageNo := by simpa using hhd
        subst hq
        cases hlq : plookup s.file.pages rid.pageNo with
        | none =>
          have := isChainB_mem_lookup s.file.pages _ _ hch rid.pageNo
            (by rw [← hpre]; exact List.mem_append_right pre (List.mem_cons_self _ _))
          rw [hlq] at this
          exact absurd this (by simp)
        | some pgq =>
          dsimp only at hdec
          rw [hlq] at hdec
          rw [← hR] at hdec
          have hrid : r = rid := (List.cons.injEq _ _ _ _ ▸ hdec).1
          have hR2 : R2 = ridsAfter pgq rid.slotNo ++ allRids s.file.pages rest2 :=
            (List.cons.injEq _ _ _ _ ▸ hdec).2
          subst hrid
          have hch2 : isChainB s.file.pages r.pageNo (r.pageNo :: rest2) = true :=
            isChainB_suffix s.file.pages pre r.pageNo rest2 s.curPageNo
              (by rw [hpre]; exact hch)
          have hnd2 : (r.pageNo :: rest2).Nodup :=
            List.Nodup.sublist (List.sublist_append_right pre _)
              (by rw [hpre]; exact hnd)
          have hih := ih
            { s with curRec := r, curPageNo := r.pageNo,
                     curPtr := some r.pageNo, curDirtyFlag := d }
            rest2 pgq hf hw hch2 hnd2 rfl hlq hR2
          simp only [List.length_cons]
          rw [scanAll_succ, heq]
          dsimp only
          exact ⟨by rw [hih.1], hih.2⟩


/-- C1: (soundness) on any well-formed scan state — in particular any state
reached by `startScan` and repeated `scanNext` from a fresh handle — an `OK`
`scanNext` returns a rid identifying a live record satisfying `matchRec`;
(completeness) an unfiltered scan started on a fresh handle returns every
live record exactly once, in forward page-chain order and slot order within
each page, and then `FILEEOF`. -/
theorem c1_scan_sound_and_complete :
    (∀ s : HFS, GoodS s → ∀ rid : Rid, (scanNext s).1 = OK →
      (scanNext s).2.1 = some rid →
      ∃ r, recAt s.file rid = some r ∧ matchRec s.sp r = true) ∧
    (∀ (f : HFile) (p : Int) (rest : List Int) (off len : Int) (ty : Datatype)
      (op : Operator),
      pagesWfB f = true →
      isChainB f.pages f.hdr.firstPage (p :: rest) = true →
      (p :: rest).Nodup →
      (startScan (openScan f) off len ty none op).1 = OK ∧
      (scanAll ((allRids f.pages (p :: rest)).length + 1)
          (startScan (openScan f) off len ty none op).2).1 =
        allRids f.pages (p :: rest) ∧
      (scanAll ((allRids f.pages (p :: rest)).length + 1)
          (startScan (openScan f) off len ty none op).2).2.1 = FILEEOF) := by
  constructor
  · exact fun s hg rid hok hrid => scanNext_sound s hg rid hok hrid
  · intro f p rest off len ty op hw hch hnd
    have hp : f.hdr.firstPage = p := ((isChainB_cons_iff _ _ _ _).mp hch).1
    rcases (isChainB_cons_iff _ _ _ _).mp hch with ⟨_, pgH, hpg, _⟩
    refine ⟨rfl, ?_⟩
    have hall : allRids f.pages (p :: rest) =
        ridsAfter pgH (-1) ++ allRids f.pages rest := by
      show ((plookup f.pages p).map pageRids).getD [] ++ allRids f.pages rest = _
      rw [show plookup f.pages p = some pgH from hp ▸ hpg]
      rfl
    exact scanAll_complete (allRids f.pages (p :: rest))
      (startScan (openScan f) off len ty none op).2 rest pgH rfl hw
      (by show isChainB f.pages f.hdr.firstPage (f.hdr.firstPage :: rest) = true
          rw [hp]; exact hp ▸ hch)
      (by rw [show ((startScan (openScan f) off len ty none op).2).curPageNo =
            f.hdr.firstPage from rfl, hp]; exact hnd)
      rfl
      (by show plookup f.pages f.hdr.firstPage = some pgH
          rw [hp]; exact hp ▸ hpg)
      (by rw [hall]; rfl)

/-- Witness for C1: soundness at the one-record file's first hit, and the
complete unfiltered enumeration of the two-page file. -/
theorem c1_witness :
    (∃ r, recAt oneRecScan.file ⟨1, 0⟩ = some r ∧ matchRec oneRecScan.sp r = true) ∧
    ((startScan (openScan twoPageFile) 0 0 .STRING none .EQ).1 = OK ∧
     (scanAll ((allRids twoPageFile.pages [1, 2]).length + 1)
        (startScan (openScan twoPageFile) 0 0 .STRING none .EQ).2).1 =
       allRids twoPageFile.pages [1, 2] ∧
     (scanAll ((allRids twoPageFile.pages [1, 2]).length + 1)
        (startScan (openScan twoPageFile) 0 0 .STRING none .EQ).2).2.1 = FILEEOF) :=
  ⟨c1_scan_sound_and_complete.1 oneRecScan
      ⟨by decide, rfl, [], by decide, by decide⟩ ⟨1, 0⟩ rfl rfl,
   c1_scan_sound_and_complete.2 twoPageFile 1 [2] 0 0 .STRING .EQ
      (by decide) (by decide) (by decide)⟩

/-! ## Mark/reset replay (C9) -/


theorem iterOK_preserves : ∀ (n : Nat) (s sn : HFS), GoodS s → iterOK n s = some sn →
    GoodS sn ∧ sn.file = s.file ∧ sn.sp = s.sp ∧
      sn.markedPageNo = s.markedPageNo ∧ sn.markedRec = s.markedRec := by
  intro n
  induction n with
  | zero =>
    intro s sn hg h
    obtain rfl : s = sn := by simpa [iterOK] using h
    exact ⟨hg, rfl, rfl, rfl, rfl⟩
  | succ n ih =>
    intro s sn hg h
    rw [show iterOK (n + 1) s =
      (match scanNext s with
        | (OK, _, s2, _) => iterOK n s2
        | _ => none) from rfl] at h
    rcases hs : scanNext s with ⟨st, r?, s2, tr⟩
    rw [hs] at h
    cases st with
    | OK =>
      dsimp only at h
      have hok : (scanNext s).1 = OK := by rw [hs]
      have hp := scanNext_preserves s hg hok
      rw [hs] at hp
      rcases hp with ⟨hg2, hf2, hsp2, hm2, hmr2⟩
      rcases ih s2 sn hg2 h with ⟨hgn, hfn, hspn, hmn, hmrn⟩
      exact ⟨hgn, by rw [hfn]; exact hf2, by rw [hspn]; exact hsp2,
        by rw [hmn]; exact hm2, by rw [hmrn]; exact hmr2⟩
    | FILEEXISTS => exact absurd h (by simp)
    | FILENOTFOUND => exact absurd h (by simp)
    | BADSCANPARM => exact absurd h (by simp)
    | INVALIDRECLEN => exact absurd h (by simp)
    | FILEEOF => exact absurd h (by simp)
    | NORECORDS => exact absurd h (by simp)
    | ENDOFPAGE => exact absurd h (by simp)
    | INVALIDSLOTNO => exact absurd h (by simp)
    | NOSPACE => exact absurd h (by simp)
    | BADPAGENO => exact absurd h (by simp)

/-- `resetScan` restores the marked position whenever the marked page is
resident, and touches neither the file nor the predicate. -/
theorem resetScan_ok (t : HFS) (pg : Page)
    (hptr : t.curPtr = some t.curPageNo)
    (hlk : plookup t.file.pages t.markedPageNo = some pg) :
    (resetScan t).1 = OK ∧
    (resetScan t).2.1.curPageNo = t.markedPageNo ∧
    (resetScan t).2.1.curRec = t.markedRec ∧
    (resetScan t).2.1.curPtr = some t.markedPageNo ∧
    (resetScan t).2.1.file = t.file ∧
    (resetScan t).2.1.sp = t.sp := by
  unfold resetScan
  by_cases h : t.markedPageNo ≠ t.curPageNo
  · rw [if_pos h]
    dsimp only
    rw [hlk]
    exact ⟨rfl, rfl, rfl, rfl, rfl, rfl⟩
  · rw [if_neg h]
    have he : t.markedPageNo = t.curPageNo := not_ne_iff.mp h
    refine ⟨rfl, he.symm, rfl, ?_, rfl, rfl⟩
    show t.curPtr = some t.markedPageNo
    rw [hptr, he]

/-- The status and rid `scanNext` returns depend only on the file pages, the
cursor position, the current record and the predicate. -/
theorem scanNext_result_congr (s t : HFS) (rest : List Int) (pgH : Page)
    (hfile : t.file = s.file) (hsp : t.sp = s.sp)
    (hpn : t.curPageNo = s.curPageNo) (hrec : t.curRec = s.curRec)
    (hptrS : s.curPtr = some s.curPageNo) (hptrT : t.curPtr = some t.curPageNo)
    (hw : pagesWfB s.file = true)
    (hch : isChainB s.file.pages s.curPageNo (s.curPageNo :: rest) = true)
    (hnd : (s.curPageNo :: rest).Nodup)
    (hpg : plookup s.file.pages s.curPageNo = some pgH) :
    (scanNext t).1 = (scanNext s).1 ∧ (scanNext t).2.1 = (scanNext s).2.1 := by
  have hs := scanNext_spec s rest pgH hw hch hnd hptrS hpg
  have ht := scanNext_spec t rest pgH (by rw [hfile]; exact hw)
    (by rw [hfile, hpn]; exact hch) (by rw [hpn]; exact hnd) hptrT
    (by rw [hfile, hpn]; exact hpg)
  have hcc : specFindChain t.sp t.file.pages (t.curPageNo :: rest) t.curRec.slotNo =
      specFindChain s.sp s.file.pages (s.curPageNo :: rest) s.curRec.slotNo := by
    rw [hsp, hfile, hpn, hrec]
  rw [hcc] at ht
  cases c : specFindChain s.sp s.file.pages (s.curPageNo :: rest) s.curRec.slotNo with
  | some pr =>
    obtain ⟨rid, ch2⟩ := pr
    rw [c] at hs ht
    dsimp only at hs ht
    rcases hs with ⟨d1, trx1, pre1, heq1, _, _⟩
    rcases ht with ⟨d2, trx2, pre2, heq2, _, _⟩
    rw [heq1, heq2]
    exact ⟨rfl, rfl⟩
  | none =>
    rw [c] at hs ht
    dsimp only at hs ht
    rcases hs with ⟨q1, d1, trx1, heq1, _⟩
    rcases ht with ⟨q2, d2, trx2, heq2, _⟩
    rw [heq1, heq2]
    exact ⟨rfl, rfl⟩

/-- C9: after `markScan`, any number of `OK` `scanNext` calls followed by
`resetScan` restores the scan so that the next `scanNext` returns exactly
what it would have returned immediately after the mark (same status, same
rid) — whether or not the scan has moved to a different page meanwhile. -/
theorem c9_mark_reset_replay (s : HFS) (n : Nat) (sn : HFS)
    (hg : GoodS s) (hiter : iterOK n (markScan s).2 = some sn) :
    (resetScan sn).1 = OK ∧
    (scanNext (resetScan sn).2.1).1 = (scanNext (markScan s).2).1 ∧
    (scanNext (resetScan sn).2.1).2.1 = (scanNext (markScan s).2).2.1 := by
  rcases hg with ⟨hw, hptr, rest, hch, hnd⟩
  rcases (isChainB_cons_iff _ _ _ _).mp hch with ⟨_, pgH, hpg, _⟩
  have hgm : GoodS (markScan s).2 := ⟨hw, hptr, rest, hch, hnd⟩
  rcases iterOK_preserves n (markScan s).2 sn hgm hiter with
    ⟨hgn, hfile, hsp, hmpn, hmr⟩
  have hfile' : sn.file = s.file := hfile
  have hmpn' : sn.markedPageNo = s.curPageNo := hmpn
  have hmr' : sn.markedRec = s.curRec := hmr
  have hlk : plookup sn.file.pages sn.markedPageNo = some pgH := by
    rw [hfile', hmpn']
    exact hpg
  rcases hgn with ⟨_, hptrn, _, _, _⟩
  rcases resetScan_ok sn pgH hptrn hlk with ⟨hok, hpn3, hrec3, hptr3, hfile3, hsp3⟩
  refine ⟨hok, ?_⟩
  exact scanNext_result_congr (markScan s).2 (resetScan sn).2.1 rest pgH
    (by rw [hfile3]; exact hfile)
    (by rw [hsp3]; exact hsp)
    (by rw [hpn3]; exact hmpn')
    (by rw [hrec3]; exact hmr')
    hptr
    (by rw [hpn3]; exact hptr3)
    hw hch hnd hpg


/-- Witness for C9: mark after the first record of the two-page file, scan
one step forward, reset, and the next `scanNext` repeats the post-mark hit. -/
theorem c9_witness :
    (resetScan c9sn).1 = OK ∧
    (scanNext (resetScan c9sn).2.1).1 = (scanNext (markScan c9base).2).1 ∧
    (scanNext (resetScan c9sn).2.1).2.1 = (scanNext (markScan c9base).2).2.1 :=
  c9_mark_reset_replay c9base 1 c9sn
    ⟨by decide, by decide, [2], by decide, by decide⟩ (by decide)

/-! ## Insert length boundary (C7) -/

theorem getLastMem_of_getLast? {α : Type} (l : List α) (a : α)
    (h : l.getLast? = some a) : a ∈ l := by
  have hmem : a ∈ l.getLast? := Option.mem_def.mpr h
  rcases List.mem_getLast?_eq_getLast hmem with ⟨hne, heq⟩
  rw [heq]
  exact List.getLast_mem hne

/-- The well-formed file's tail page is resident. -/
theorem WfFile_last_lookup (f : HFile) (hw : WfFile f) :
    ∃ pg, plookup f.pages f.hdr.lastPage = some pg := by
  rcases hw with ⟨hwp, ch, hch, hne, hnd, hlen, hlast⟩
  have hmem : f.hdr.lastPage ∈ ch := getLastMem_of_getLast? ch _ hlast
  have := isChainB_mem_lookup f.pages ch f.hdr.firstPage hch _ hmem
  cases hl : plookup f.pages f.hdr.lastPage with
  | none => rw [hl] at this; exact absurd this (by simp)
  | some pg => exact ⟨pg, rfl⟩

/-- Page numbers at or past `nextAlloc` are not in the store. -/
theorem plookup_fresh_none (f : HFile) (hwp : pagesWfB f = true) (n : Int)
    (hn : f.nextAlloc ≤ n) : plookup f.pages n = none := by
  cases hl : plookup f.pages n with
  | none => rfl
  | some pg =>
    have := (pagesWf_facts f hwp n pg hl).2.2
    omega

/-- A successful page-level insert stores the record at the returned rid and
changes neither the page number nor the forward link. -/
theorem insertRecordS_ok (pg : Page) (r : Rec) (h : ¬ r.length > pg.free) :
    ∃ pg2 rid, pg.insertRecordS r = (OK, some (pg2, rid)) ∧
      pg2.getRecordP rid = some r ∧ pg2.pageNo = pg.pageNo ∧
      pg2.nextPage = pg.nextPage ∧ rid.pageNo = pg.pageNo := by
  unfold Page.insertRecordS
  rw [if_neg h]
  cases hfn : firstNoneIdx pg.slots with
  | some i =>
    have hi : i < pg.slots.length := by
      have := List.mem_of_find?_eq_some hfn
      simpa using this
    refine ⟨_, _, rfl, ?_, rfl, rfl, rfl⟩
    rw [getRecordP_nat]
    show (pg.slots.set i (some r)).getD i none = some r
    rw [List.getD_eq_getElem?_getD, List.getElem?_set_self hi]
    rfl
  | none =>
    refine ⟨_, _, rfl, ?_, rfl, rfl, rfl⟩
    rw [getRecordP_nat]
    show (pg.slots ++ [some r]).getD pg.slots.length none = some r
    rw [List.getD_eq_getElem?_getD, List.getElem?_concat_length]
    rfl

/-- A page-level insert fails exactly on lack of space. -/
theorem insertRecordS_nospace (pg : Page) (r : Rec) (h : r.length > pg.free) :
    pg.insertRecordS r = (NOSPACE, none) := by
  unfold Page.insertRecordS
  rw [if_pos h]

/-- C7: with a pinned, resident cursor on a well-formed file, `insertRecord`
fails with `INVALIDRECLEN` exactly for records longer than
`PAGESIZE - DPFIXED` (leaving the state untouched), and any record up to
that bound — the bound itself included — is inserted successfully and is
readable at the returned rid, a fresh tail page being allocated when the
cursor page lacks space (the retry on the fresh page always succeeds). -/
theorem c7_insert_reclen_boundary (s : HFS) (r : Rec) (k : Int) (pg : Page)
    (h0 : 0 ≤ r.length) (h1 : r.length < 2 ^ 31)
    (hw : WfFile s.file)
    (hptr : s.curPtr = some k)
    (hpg : plookup s.file.pages k = some pg) :
    ((insertRecord s r).1 = INVALIDRECLEN ↔ r.length > PAGESIZE - DPFIXED) ∧
    (r.length > PAGESIZE - DPFIXED → insertRecord s r = (INVALIDRECLEN, none, s, [])) ∧
    (r.length ≤ PAGESIZE - DPFIXED →
      (insertRecord s r).1 = OK ∧
      ∃ rid, (insertRecord s r).2.1 = some rid ∧
        recAt (insertRecord s r).2.2.1.file rid = some r) := by
  have hgu : uint32 r.length = r.length := by
    unfold uint32
    omega
  by_cases hbig : r.length > PAGESIZE - DPFIXED
  · have hg : uint32 r.length > PAGESIZE - DPFIXED := by rw [hgu]; exact hbig
    have heq : insertRecord s r = (INVALIDRECLEN, none, s, []) := by
      unfold insertRecord
      rw [if_pos hg]
    refine ⟨?_, fun _ => heq, fun hc => absurd hbig (not_lt.mpr hc)⟩
    rw [heq]
    exact ⟨fun _ => hbig, fun _ => rfl⟩
  · have hg : ¬ uint32 r.length > PAGESIZE - DPFIXED := by rw [hgu]; exact hbig
    have hsmall : r.length ≤ PAGESIZE - DPFIXED := not_lt.mp hbig
    have hwp : pagesWfB s.file = true := hw.1
    have hmain : (insertRecord s r).1 = OK ∧
        ∃ rid, (insertRecord s r).2.1 = some rid ∧
          recAt (insertRecord s r).2.2.1.file rid = some r := by
      unfold insertRecord
      rw [if_neg hg, hptr]
      dsimp only
      rw [hptr]
      dsimp only
      rw [hpg]
      dsimp only
      by_cases hsp : r.length > pg.free
      · -- the cursor page is full: allocate, link, retry on the fresh page
        rw [insertRecordS_nospace pg r hsp]
        dsimp only
        obtain ⟨pgL, hlkL⟩ := WfFile_last_lookup s.file hw
        have hlkL1 : plookup (s.file.pages ++
            [(s.file.nextAlloc, Page.init s.file.nextAlloc)])
            s.file.hdr.lastPage = some pgL :=
          plookup_append_of_some _ _ _ _ hlkL
        rw [hlkL1]
        dsimp only
        have htne : s.file.nextAlloc ≠ s.file.hdr.lastPage := by
          have := (pagesWf_facts s.file hwp _ pgL hlkL).2.2
          omega
        have hlknew : plookup (pupdate (s.file.pages ++
            [(s.file.nextAlloc, Page.init s.file.nextAlloc)])
            s.file.hdr.lastPage { pgL with nextPage := s.file.nextAlloc })
            s.file.nextAlloc = some (Page.init s.file.nextAlloc) := by
          rw [plookup_pupdate_ne _ _ _ _ htne, plookup_append,
            plookup_fresh_none s.file hwp s.file.nextAlloc le_rfl]
          rw [plookup_cons]
          rw [if_pos rfl]
        rw [hlknew]
        dsimp only
        have hfit : ¬ r.length > (Page.init s.file.nextAlloc).free := by
          show ¬ r.length > PAGESIZE - DPFIXED
          exact hbig
        rcases insertRecordS_ok (Page.init s.file.nextAlloc) r hfit with
          ⟨pg2, rid, hins, hget, hpn, hnx, hrpn⟩
        rw [hins]
        dsimp only
        refine ⟨rfl, rid, rfl, ?_⟩
        unfold recAt
        rw [show rid.pageNo = s.file.nextAlloc from by rw [hrpn]; rfl]
        rw [plookup_pupdate_self _ _ pg2 (Page.init s.file.nextAlloc) hlknew]
        exact Option.bind_eq_bind.symm ▸ hget
      · -- the record fits on the cursor page
        rcases insertRecordS_ok pg r hsp with ⟨pg2, rid, hins, hget, hpn, hnx, hrpn⟩
        rw [hins]
        dsimp only
        refine ⟨rfl, rid, rfl, ?_⟩
        unfold recAt
        have hkpn : pg.pageNo = k := (pagesWf_facts s.file hwp k pg hpg).1
        rw [show rid.pageNo = k from by rw [hrpn, hkpn]]
        rw [plookup_pupdate_self _ _ pg2 pg hpg]
        exact Option.bind_eq_bind.symm ▸ hget
    refine ⟨?_, fun hcon => absurd hcon hbig, fun _ => hmain⟩
    constructor
    · intro h
      rw [hmain.1] at h
      exact absurd h (by simp)
    · intro h
      exact absurd h hbig


/-- Witness for C7 at the boundary length `PAGESIZE - DPFIXED = 1004` on a
cursor page that is too full for it (forcing the split-and-retry path). -/
theorem c7_witness :
    ((insertRecord c7state ⟨[5], 1004⟩).1 = INVALIDRECLEN ↔
      (⟨[5], 1004⟩ : Rec).length > PAGESIZE - DPFIXED) ∧
    ((⟨[5], 1004⟩ : Rec).length > PAGESIZE - DPFIXED →
      insertRecord c7state ⟨[5], 1004⟩ = (INVALIDRECLEN, none, c7state, [])) ∧
    ((⟨[5], 1004⟩ : Rec).length ≤ PAGESIZE - DPFIXED →
      (insertRecord c7state ⟨[5], 1004⟩).1 = OK ∧
      ∃ rid, (insertRecord c7state ⟨[5], 1004⟩).2.1 = some rid ∧
        recAt (insertRecord c7state ⟨[5], 1004⟩).2.2.1.file rid = some ⟨[5], 1004⟩) :=
  c7_insert_reclen_boundary c7state ⟨[5], 1004⟩ 1 c7pg (by decide) (by decide)
    ⟨by decide, [1], by decide, by decide, by decide, by decide, by decide⟩
    (by decide) (by decide)


/-! ## The scan operations leave the file contents alone -/

theorem followN_succ (pages : List (Int × Page)) (p : Int) (n : Nat) :
    followN pages p (n + 1) =
      match plookup pages p with
      | some pg => followN pages pg.nextPage n
      | none => none := by
  conv_lhs => unfold followN

theorem hfGetRecord_file (s : HFS) (rid : Rid) : (hfGetRecord s rid).2.2.1.file = s.file := by
  unfold hfGetRecord
  by_cases h1 : rid.pageNo = s.curPageNo
  · rw [if_pos h1]
    cases s.curPtr <;> rfl
  · rw [if_neg h1]
    by_cases h2 : s.curPtr.isNone
    · rw [if_pos h2]
      dsimp only
      cases plookup s.file.pages rid.pageNo <;> rfl
    · rw [if_neg h2]
      dsimp only
      cases plookup s.file.pages rid.pageNo <;> rfl

theorem startScan_file (s : HFS) (off len : Int) (ty : Datatype)
    (fil : Option (List Nat)) (o : Operator) : (startScan s off len ty fil o).2.file = s.file := by
  unfold startScan
  cases fil with
  | none => rfl
  | some f =>
    dsimp only
    split
    · rfl
    · rfl

theorem endScan_file (s : HFS) : (endScan s).2.1.file = s.file := by
  unfold endScan
  cases s.curPtr <;> rfl

theorem resetScan_file (s : HFS) : (resetScan s).2.1.file = s.file := by
  unfold resetScan
  by_cases h : s.markedPageNo ≠ s.curPageNo
  · rw [if_pos h]
    dsimp only
    cases plookup s.file.pages s.markedPageNo <;> rfl
  · rw [if_neg h]

theorem scanOuter_file : ∀ (fuel : Nat) (s : HFS) (rs : Status) (nr : Option Rid)
    (npn : Int) (tr : List BufOp),
    (scanOuter fuel s rs nr npn tr).2.2.1.file = s.file := by
  intro fuel
  induction fuel with
  | zero => intro s rs nr npn tr; rfl
  | succ n ih =>
    intro s rs nr npn tr
    unfold scanOuter
    by_cases h1 : npn = -1
    · rw [if_pos h1]
    · rw [if_neg h1]
      cases hpt : s.curPtr.bind (plookup s.file.pages) with
      | none => rfl
      | some pg =>
        dsimp only
        cases hrl : recLoop s.sp pg rs nr (recFuel pg) with
        | some rid => rfl
        | none =>
          dsimp only
          cases hnx : plookup s.file.pages pg.nextPage with
          | some pg2 =>
            dsimp only
            rcases hfr : pg2.firstRecordSN with ⟨rs2, nr2⟩
            exact ih _ _ _ _ _
          | none =>
            dsimp only
            rw [hpt, Option.getD_some]
            rcases hfr : pg.firstRecordSN with ⟨rs2, nr2⟩
            exact ih _ _ _ _ _

theorem scanNext_file (s : HFS) : (scanNext s).2.2.1.file = s.file := by
  unfold scanNext
  cases hcp : s.curPtr with
  | none =>
    dsimp only
    cases hlk : plookup s.file.pages s.file.hdr.firstPage with
    | some pg =>
      dsimp only
      exact scanOuter_file _ _ _ _ _ _
    | none => rfl
  | some k =>
    dsimp only
    cases hlk : plookup s.file.pages k with
    | some pg =>
      dsimp only
      rcases hnr : pg.nextRecordSN s.curRec with ⟨rs, nr⟩
      exact scanOuter_file _ _ _ _ _ _
    | none => rfl

/-! ## From a chain witness to the hop-count form of the invariant -/

theorem isChainB_followN (pages : List (Int × Page)) :
    ∀ (ch : List Int) (p q : Int), isChainB pages p ch = true →
      ch.getLast? = some q → followN pages p (ch.length - 1) = some q := by
  intro ch
  induction ch with
  | nil => intro p q _ hq; simp at hq
  | cons a rest ih =>
    intro p q h hq
    rcases (isChainB_cons_iff pages p a rest).mp h with ⟨rfl, pg, hl, hc⟩
    cases rest with
    | nil =>
      have hpq : p = q := by simpa using hq
      subst hpq
      rfl
    | cons b rest' =>
      have hq' : (b :: rest').getLast? = some q := by
        rw [← List.getLast?_cons_cons]
        exact hq
      have hlen : (p :: b :: rest').length - 1 = (b :: rest').length - 1 + 1 := by
        simp
      rw [hlen, followN_succ, hl]
      exact ih pg.nextPage q hc hq'

theorem isChainB_last_next (pages : List (Int × Page)) :
    ∀ (ch : List Int) (p q : Int), isChainB pages p ch = true →
      ch.getLast? = some q → ∃ pg, plookup pages q = some pg ∧ pg.nextPage = -1 := by
  intro ch
  induction ch with
  | nil => intro p q _ hq; simp at hq
  | cons a rest ih =>
    intro p q h hq
    rcases (isChainB_cons_iff pages p a rest).mp h with ⟨rfl, pg, hl, hc⟩
    cases rest with
    | nil =>
      have hpq : p = q := by simpa using hq
      subst hpq
      refine ⟨pg, hl, ?_⟩
      simpa [isChainB] using hc
    | cons b rest' =>
      have hq' : (b :: rest').getLast? = some q := by
        rw [← List.getLast?_cons_cons]
        exact hq
      exact ih pg.nextPage q hc hq'

/-- A well-formed file satisfies the hop-count reading of H2: `lastPage` is
reached from `firstPage` in `pageCnt - 1` hops and carries the sentinel. -/
theorem WfFile_chainReach (f : HFile) (hw : WfFile f) : ChainReach f := by
  rcases hw with ⟨hwp, ch, hch, hne, hnd, hlen, hlast⟩
  have hpos : 0 < ch.length := List.length_pos.mpr hne
  refine ⟨by omega, ?_, isChainB_last_next f.pages ch f.hdr.firstPage f.hdr.lastPage hch hlast⟩
  have htn : (f.hdr.pageCnt - 1).toNat = ch.length - 1 := by omega
  rw [htn]
  exact isChainB_followN f.pages ch f.hdr.firstPage f.hdr.lastPage hch hlast

/-! ## Preservation of well-formedness -/

theorem not_mem_keys_of_plookup_none (l : List (Int × Page)) (k : Int)
    (h : plookup l k = none) : k ∉ l.map Prod.fst := by
  intro hmem
  rcases List.mem_map.mp hmem with ⟨e, he, hek⟩
  unfold plookup at h
  cases hf : l.find? (fun e => e.1 == k) with
  | some e' => rw [hf] at h; exact absurd h (by simp)
  | none =>
    have := List.find?_eq_none.mp hf e he
    simp [hek] at this

/-- Replacing one resident page by a page with the same number and forward
link (and touching only `recCnt` in the header) keeps the file well
formed. -/
theorem WfFile_pupdate (f : HFile) (k : Int) (pg pg' : Page) (hdr' : FileHdr)
    (hw : WfFile f)
    (hpg : plookup f.pages k = some pg)
    (hno : pg'.pageNo = pg.pageNo) (hnx : pg'.nextPage = pg.nextPage)
    (hfp : hdr'.firstPage = f.hdr.firstPage) (hlp : hdr'.lastPage = f.hdr.lastPage)
    (hpc : hdr'.pageCnt = f.hdr.pageCnt) :
    WfFile { hdr := hdr', pages := pupdate f.pages k pg', nextAlloc := f.nextAlloc } := by
  rcases hw with ⟨hwp, ch, hch, hne, hnd, hlen, hlast⟩
  have hkf := pagesWf_facts f hwp k pg hpg
  have hcongr : ∀ q, (plookup (pupdate f.pages k pg') q).map Page.nextPage =
      (plookup f.pages q).map Page.nextPage := by
    intro q
    by_cases hq : q = k
    · subst hq
      rw [plookup_pupdate_self f.pages q pg' pg hpg, hpg]
      simp [hnx]
    · rw [plookup_pupdate_ne f.pages k q pg' hq]
  constructor
  · unfold pagesWfB at hwp ⊢
    rw [decide_eq_true_iff] at hwp ⊢
    refine ⟨by rw [pupdate_keys]; exact hwp.1, ?_⟩
    rw [List.all_eq_true]
    intro e hmem
    rcases List.mem_map.mp hmem with ⟨e0, he0, hee⟩
    by_cases h0 : (e0.1 == k) = true
    · rw [if_pos h0] at hee
      subst hee
      have hk := beq_iff_eq.mp h0
      simp only [Bool.and_eq_true, beq_iff_eq, decide_eq_true_iff]
      exact ⟨⟨by rw [hno, hkf.1], hkf.2.1⟩, hkf.2.2⟩
    · rw [if_neg (by simpa using h0)] at hee
      subst hee
      exact List.all_eq_true.mp hwp.2 e0 he0
  · refine ⟨ch, ?_, hne, hnd, by rw [hpc]; exact hlen, by rw [hlp]; exact hlast⟩
    rw [hfp, isChainB_congr _ _ hcongr]
    exact hch

/-- Relinking the tail of a duplicate-free chain to a fresh end page extends
the chain by that page: chain members other than the tail keep their links in
the new store, the tail now points at the fresh page, and the fresh page
carries the sentinel. -/
theorem isChainB_relink (pages pages2 : List (Int × Page)) (t n : Int) (npg : Page)
    (htn : plookup pages2 t = some npg) (hnn : npg.nextPage = n)
    (hnend : ∃ pg2, plookup pages2 n = some pg2 ∧ pg2.nextPage = -1)
    (hold : ∀ q pg, q ≠ t → plookup pages q = some pg →
      ∃ pg', plookup pages2 q = some pg' ∧ pg'.nextPage = pg.nextPage) :
    ∀ (ch : List Int) (p : Int), isChainB pages p ch = true → ch.getLast? = some t →
      ch.Nodup → isChainB pages2 p (ch ++ [n]) = true := by
  intro ch
  induction ch with
  | nil => intro p _ hq _; simp at hq
  | cons a rest ih =>
    intro p h hq hnd
    rcases (isChainB_cons_iff pages p a rest).mp h with ⟨rfl, pg, hl, hc⟩
    cases rest with
    | nil =>
      have hpt : p = t := by simpa using hq
      subst hpt
      rcases hnend with ⟨pg2, hl2, hn2⟩
      refine (isChainB_cons_iff pages2 p p [n]).mpr ⟨rfl, npg, htn, ?_⟩
      rw [hnn]
      refine (isChainB_cons_iff pages2 n n []).mpr ⟨rfl, pg2, hl2, ?_⟩
      simp [isChainB, hn2]
    | cons b rest' =>
      have hq' : (b :: rest').getLast? = some t := by
        rw [← List.getLast?_cons_cons]
        exact hq
      have hpt : p ≠ t := by
        intro hpt
        have hmem : t ∈ b :: rest' := getLastMem_of_getLast? _ _ hq'
        rw [← hpt] at hmem
        exact (List.nodup_cons.mp hnd).1 hmem
      rcases hold p pg hpt hl with ⟨pg', hl', hn'⟩
      refine (isChainB_cons_iff pages2 p p ((b :: rest') ++ [n])).mpr ⟨rfl, pg', hl', ?_⟩
      rw [hn']
      exact ih pg.nextPage hc hq' (List.nodup_cons.mp hnd).2

/-- The page-split step of `insertRecord` keeps the file well formed: append
the freshly allocated page `nextAlloc`, relink the old tail to it, make it
the new `lastPage` and count one more page. -/
theorem WfFile_split (f : HFile) (tailPg : Page) (rc : Int)
    (hw : WfFile f)
    (ht : plookup f.pages f.hdr.lastPage = some tailPg) :
    WfFile { hdr := { firstPage := f.hdr.firstPage, lastPage := f.nextAlloc,
                      pageCnt := f.hdr.pageCnt + 1, recCnt := rc },
             pages := pupdate (f.pages ++ [(f.nextAlloc, Page.init f.nextAlloc)])
                        f.hdr.lastPage { tailPg with nextPage := f.nextAlloc },
             nextAlloc := f.nextAlloc + 1 } := by
  rcases hw with ⟨hwp, ch, hch, hne, hnd, hlen, hlast⟩
  have htf := pagesWf_facts f hwp f.hdr.lastPage tailPg ht
  have hfresh : plookup f.pages f.nextAlloc = none := plookup_fresh_none f hwp _ le_rfl
  have hnotmem : f.nextAlloc ∉ f.pages.map Prod.fst :=
    not_mem_keys_of_plookup_none _ _ hfresh
  have htne : f.hdr.lastPage ≠ f.nextAlloc := by omega
  have happ : plookup (f.pages ++ [(f.nextAlloc, Page.init f.nextAlloc)])
      f.hdr.lastPage = some tailPg := plookup_append_of_some _ _ _ _ ht
  have htn : plookup (pupdate (f.pages ++ [(f.nextAlloc, Page.init f.nextAlloc)])
      f.hdr.lastPage { tailPg with nextPage := f.nextAlloc }) f.hdr.lastPage =
      some { tailPg with nextPage := f.nextAlloc } :=
    plookup_pupdate_self _ _ _ tailPg happ
  have hnew : plookup (pupdate (f.pages ++ [(f.nextAlloc, Page.init f.nextAlloc)])
      f.hdr.lastPage { tailPg with nextPage := f.nextAlloc }) f.nextAlloc =
      some (Page.init f.nextAlloc) := by
    rw [plookup_pupdate_ne _ _ _ _ (Ne.symm htne), plookup_append, hfresh, plookup_cons]
    rw [if_pos rfl]
  have hchmem : f.nextAlloc ∉ ch := by
    intro hmem
    have := isChainB_mem_lookup f.pages ch f.hdr.firstPage hch _ hmem
    rw [hfresh] at this
    exact absurd this (by simp)
  have hwp' := hwp
  unfold pagesWfB at hwp'
  rw [decide_eq_true_iff] at hwp'
  constructor
  · unfold pagesWfB
    rw [decide_eq_true_iff]
    constructor
    · rw [pupdate_keys, List.map_append, List.nodup_append]
      refine ⟨hwp'.1, by simp, ?_⟩
      intro x hx hx2
      simp only [List.map_cons, List.map_nil, List.mem_singleton] at hx2
      subst hx2
      exact hnotmem hx
    · rw [List.all_eq_true]
      intro e hmem
      rcases List.mem_map.mp hmem with ⟨e0, he0, hee⟩
      rcases List.mem_append.mp he0 with he0f | he0n
      · by_cases h0 : (e0.1 == f.hdr.lastPage) = true
        · rw [if_pos h0] at hee
          subst hee
          simp only [Bool.and_eq_true, beq_iff_eq, decide_eq_true_iff]
          refine ⟨⟨?_, htf.2.1⟩, by omega⟩
          show tailPg.pageNo = f.hdr.lastPage
          exact htf.1
        · rw [if_neg (by simpa using h0)] at hee
          subst hee
          have hcond := List.all_eq_true.mp hwp'.2 e0 he0f
          simp only [Bool.and_eq_true, beq_iff_eq, decide_eq_true_iff] at hcond ⊢
          exact ⟨⟨hcond.1.1, hcond.1.2⟩, by omega⟩
      · have he0 : e0 = (f.nextAlloc, Page.init f.nextAlloc) := by simpa using he0n
        subst he0
        rw [if_neg (by simpa using Ne.symm htne)] at hee
        subst hee
        simp only [Bool.and_eq_true, beq_iff_eq, decide_eq_true_iff]
        exact ⟨⟨rfl, by omega⟩, by omega⟩
  · refine ⟨ch ++ [f.nextAlloc], ?_, by simp, ?_, ?_, ?_⟩
    · exact isChainB_relink f.pages _ f.hdr.lastPage f.nextAlloc _ htn rfl
        ⟨Page.init f.nextAlloc, hnew, rfl⟩
        (fun q pg hq hlq =>
          ⟨pg, by rw [plookup_pupdate_ne _ _ _ _ hq]
                  exact plookup_append_of_some _ _ _ _ hlq, rfl⟩)
        ch f.hdr.firstPage hch hlast hnd
    · rw [List.nodup_append]
      refine ⟨hnd, List.nodup_singleton _, ?_⟩
      intro x hx hx2
      rw [List.mem_singleton] at hx2
      subst hx2
      exact hchmem hx
    · show ((ch ++ [f.nextAlloc]).length : Int) = f.hdr.pageCnt + 1
      rw [List.length_append, List.length_singleton]
      push_cast
      omega
    · show (ch ++ [f.nextAlloc]).getLast? = some f.nextAlloc
      rw [List.getLast?_concat]

/-- `Page::deleteRecord` never changes the page number or the forward link. -/
theorem deleteRecordS_keeps (pg : Page) (rid : Rid) :
    (pg.deleteRecordS rid).2.pageNo = pg.pageNo ∧
      (pg.deleteRecordS rid).2.nextPage = pg.nextPage := by
  unfold Page.deleteRecordS
  by_cases h : rid.slotNo < 0
  · rw [if_pos h]
    exact ⟨rfl, rfl⟩
  · rw [if_neg h]
    cases pg.slots.getD rid.slotNo.toNat none with
    | none => exact ⟨rfl, rfl⟩
    | some r => exact ⟨rfl, rfl⟩

/-- `HeapFileScan::deleteRecord` keeps the file well formed (it touches one
resident page's slots and the header's `recCnt` only). -/
theorem scanDelete_wf (s : HFS) (hw : WfFile s.file) : WfFile (scanDeleteRecord s).2.file := by
  unfold scanDeleteRecord
  cases hcp : s.curPtr with
  | none => exact hw
  | some k =>
    dsimp only
    cases hpg : plookup s.file.pages k with
    | none => exact hw
    | some pg =>
      dsimp only
      rcases hdel : pg.deleteRecordS s.curRec with ⟨st, pg'⟩
      have hkeep := deleteRecordS_keeps pg s.curRec
      rw [hdel] at hkeep
      exact WfFile_pupdate s.file k pg pg'
        { s.file.hdr with recCnt := s.file.hdr.recCnt - 1 }
        hw hpg hkeep.1 hkeep.2 rfl rfl rfl

/-- A successful `Page::insertRecord` never changes the page number or the
forward link. -/
theorem insertRecordS_keeps (pg : Page) (r : Rec) (st : Status) (pg' : Page) (rid : Rid)
    (h : pg.insertRecordS r = (st, some (pg', rid))) :
    pg'.pageNo = pg.pageNo ∧ pg'.nextPage = pg.nextPage := by
  unfold Page.insertRecordS at h
  by_cases hsp : r.length > pg.free
  · rw [if_pos hsp] at h
    simp at h
  · rw [if_neg hsp] at h
    cases hfn : firstNoneIdx pg.slots with
    | some i =>
      rw [hfn] at h
      simp only [Prod.mk.injEq, Option.some.injEq] at h
      rw [← h.2.1]
      exact ⟨rfl, rfl⟩
    | none =>
      rw [hfn] at h
      simp only [Prod.mk.injEq, Option.some.injEq] at h
      rw [← h.2.1]
      exact ⟨rfl, rfl⟩

/-- `insertRecord` keeps the file well formed, and either leaves `pageCnt`
alone or (on the page-split path) increments it by one while linking the old
tail page to the new `lastPage`. -/
theorem insertRecord_chain (s : HFS) (r : Rec) (hw : WfFile s.file) :
    WfFile (insertRecord s r).2.2.1.file ∧
      ((insertRecord s r).2.2.1.file.hdr.pageCnt = s.file.hdr.pageCnt ∨
        ((insertRecord s r).2.2.1.file.hdr.pageCnt = s.file.hdr.pageCnt + 1 ∧
          ∃ tpg, plookup (insertRecord s r).2.2.1.file.pages s.file.hdr.lastPage = some tpg ∧
            tpg.nextPage = (insertRecord s r).2.2.1.file.hdr.lastPage)) := by
  have hwp : pagesWfB s.file = true := hw.1
  by_cases hg : uint32 r.length > PAGESIZE - DPFIXED
  · unfold insertRecord
    rw [if_pos hg]
    exact ⟨hw, Or.inl rfl⟩
  · obtain ⟨pgL, hlkL⟩ := WfFile_last_lookup s.file hw
    have hlkL1 : plookup (s.file.pages ++
        [(s.file.nextAlloc, Page.init s.file.nextAlloc)])
        s.file.hdr.lastPage = some pgL :=
      plookup_append_of_some _ _ _ _ hlkL
    have htne : s.file.nextAlloc ≠ s.file.hdr.lastPage := by
      have := (pagesWf_facts s.file hwp _ pgL hlkL).2.2
      omega
    have hreln : plookup (pupdate (s.file.pages ++
        [(s.file.nextAlloc, Page.init s.file.nextAlloc)])
        s.file.hdr.lastPage { pgL with nextPage := s.file.nextAlloc })
        s.file.hdr.lastPage = some { pgL with nextPage := s.file.nextAlloc } :=
      plookup_pupdate_self _ _ _ pgL hlkL1
    have hlknew : plookup (pupdate (s.file.pages ++
        [(s.file.nextAlloc, Page.init s.file.nextAlloc)])
        s.file.hdr.lastPage { pgL with nextPage := s.file.nextAlloc })
        s.file.nextAlloc = some (Page.init s.file.nextAlloc) := by
      rw [plookup_pupdate_ne _ _ _ _ htne, plookup_append,
        plookup_fresh_none s.file hwp s.file.nextAlloc le_rfl]
      rw [plookup_cons]
      rw [if_pos rfl]
    cases hcp : s.curPtr with
    | some k =>
      unfold insertRecord
      rw [if_neg hg, hcp]
      dsimp only
      rw [hcp]
      dsimp only
      cases hpg : plookup s.file.pages k with
      | none => exact ⟨hw, Or.inl rfl⟩
      | some pg =>
        dsimp only
        by_cases hsp : r.length > pg.free
        · rw [insertRecordS_nospace pg r hsp]
          dsimp only
          rw [hlkL1]
          dsimp only
          rw [hlknew]
          dsimp only
          by_cases hfit : r.length > (Page.init s.file.nextAlloc).free
          · rw [insertRecordS_nospace _ r hfit]
            dsimp only
            exact ⟨WfFile_split s.file pgL _ hw hlkL,
              Or.inr ⟨rfl, { pgL with nextPage := s.file.nextAlloc }, hreln, rfl⟩⟩
          · rcases insertRecordS_ok (Page.init s.file.nextAlloc) r hfit with
              ⟨pg3, rid, hins2, hget2, hpn2, hnx2, hrpn2⟩
            rw [hins2]
            dsimp only
            refine ⟨?_, Or.inr ⟨rfl, { pgL with nextPage := s.file.nextAlloc }, ?_, rfl⟩⟩
            · exact WfFile_pupdate _ s.file.nextAlloc (Page.init s.file.nextAlloc) pg3 _
                (WfFile_split s.file pgL s.file.hdr.recCnt hw hlkL)
                hlknew hpn2 hnx2 rfl rfl rfl
            · rw [plookup_pupdate_ne _ _ _ _ (Ne.symm htne)]
              exact hreln
        · rcases insertRecordS_ok pg r hsp with ⟨pg2, rid, hins, hget, hpn, hnx, hrpn⟩
          rw [hins]
          dsimp only
          exact ⟨WfFile_pupdate s.file k pg pg2 _ hw hpg hpn hnx rfl rfl rfl, Or.inl rfl⟩
    | none =>
      unfold insertRecord
      rw [if_neg hg, hcp]
      dsimp only
      rw [hlkL]
      dsimp only
      rw [hlkL]
      dsimp only
      by_cases hsp : r.length > pgL.free
      · rw [insertRecordS_nospace pgL r hsp]
        dsimp only
        rw [hlkL1]
        dsimp only
        rw [hlknew]
        dsimp only
        by_cases hfit : r.length > (Page.init s.file.nextAlloc).free
        · rw [insertRecordS_nospace _ r hfit]
          dsimp only
          exact ⟨WfFile_split s.file pgL _ hw hlkL,
            Or.inr ⟨rfl, { pgL with nextPage := s.file.nextAlloc }, hreln, rfl⟩⟩
        · rcases insertRecordS_ok (Page.init s.file.nextAlloc) r hfit with
            ⟨pg3, rid, hins2, hget2, hpn2, hnx2, hrpn2⟩
          rw [hins2]
          dsimp only
          refine ⟨?_, Or.inr ⟨rfl, { pgL with nextPage := s.file.nextAlloc }, ?_, rfl⟩⟩
          · exact WfFile_pupdate _ s.file.nextAlloc (Page.init s.file.nextAlloc) pg3 _
              (WfFile_split s.file pgL s.file.hdr.recCnt hw hlkL)
              hlknew hpn2 hnx2 rfl rfl rfl
          · rw [plookup_pupdate_ne _ _ _ _ (Ne.symm htne)]
            exact hreln
      · rcases insertRecordS_ok pgL r hsp with ⟨pg2, rid, hins, hget, hpn, hnx, hrpn⟩
        rw [hins]
        dsimp only
        exact ⟨WfFile_pupdate s.file s.file.hdr.lastPage pgL pg2 _ hw hlkL hpn hnx rfl rfl rfl,
          Or.inl rfl⟩

theorem newHeapFile_wf : WfFile newHeapFile :=
  ⟨by decide, [1], by decide, by decide, by decide, by decide, by decide⟩

/-- Every interface call keeps the file well formed. -/
theorem applyFOp_wf (s : HFS) (o : FOp) (hw : WfFile s.file) : WfFile (applyFOp s o).file := by
  cases o with
  | ins r => exact (insertRecord_chain s r hw).1
  | del => exact scanDelete_wf s hw
  | snext =>
    show WfFile (scanNext s).2.2.1.file
    rw [scanNext_file]
    exact hw
  | getRec rid =>
    show WfFile (hfGetRecord s rid).2.2.1.file
    rw [hfGetRecord_file]
    exact hw
  | sstart off len ty fil o =>
    show WfFile (startScan s off len ty fil o).2.file
    rw [startScan_file]
    exact hw
  | send =>
    show WfFile (endScan s).2.1.file
    rw [endScan_file]
    exact hw
  | smark => exact hw
  | sreset =>
    show WfFile (resetScan s).2.1.file
    rw [resetScan_file]
    exact hw
  | mdirty => exact hw
  | reopen => exact hw

theorem applyFOps_wf : ∀ (ops : List FOp) (s : HFS), WfFile s.file →
    WfFile (applyFOps ops s).file := by
  intro ops
  induction ops with
  | nil => intro s hw; exact hw
  | cons o rest ih =>
    intro s hw
    exact ih (applyFOp s o) (applyFOp_wf s o hw)

/-- **C6 (amended).** Creating a file on a fresh store lays down the
single-page heap file, and after *any* sequence of interface calls on a
handle to a freshly created file the page chain is intact in the corrected
hop count: at least one page, `lastPage` is reached from `firstPage` in
exactly `pageCnt - 1` nextPage hops (the chain holds `pageCnt` pages, so the
spec's "pageCnt hops" is off by one), and the tail page carries the end
sentinel `-1`.  Moreover a further `insertRecord` either leaves `pageCnt`
unchanged or — on the page-split path — increments it by exactly one while
linking the old tail page to the new `lastPage`. -/
theorem c6_amended_chain_invariant (ops : List FOp) (nm : String) :
    (createHeapFile ⟨[], []⟩ nm).2.files = [(nm, newHeapFile)] ∧
    WfFile (applyFOps ops (openScan newHeapFile)).file ∧
    ChainReach (applyFOps ops (openScan newHeapFile)).file ∧
    (∀ r : Rec,
      (insertRecord (applyFOps ops (openScan newHeapFile)) r).2.2.1.file.hdr.pageCnt =
          (applyFOps ops (openScan newHeapFile)).file.hdr.pageCnt ∨
        ((insertRecord (applyFOps ops (openScan newHeapFile)) r).2.2.1.file.hdr.pageCnt =
            (applyFOps ops (openScan newHeapFile)).file.hdr.pageCnt + 1 ∧
          ∃ tpg,
            plookup (insertRecord (applyFOps ops (openScan newHeapFile)) r).2.2.1.file.pages
                (applyFOps ops (openScan newHeapFile)).file.hdr.lastPage = some tpg ∧
              tpg.nextPage =
                (insertRecord (applyFOps ops (openScan newHeapFile)) r).2.2.1.file.hdr.lastPage)) := by
  have hwf : WfFile (applyFOps ops (openScan newHeapFile)).file :=
    applyFOps_wf ops (openScan newHeapFile) newHeapFile_wf
  exact ⟨rfl, hwf, WfFile_chainReach _ hwf,
    fun r => (insertRecord_chain (applyFOps ops (openScan newHeapFile)) r hwf).2⟩
